import Mathlib

/-!
Verification development for the dependency-graph engine of the
architecture-visualizer package: a shallow embedding of its graph utilities
(`graph-utils` in `src/index.ts`), the circular-dependency detector, the
module-mapper metrics, the complexity analyzer's maintainability index and
the Python dependency classifier, together with theorems checking the
specified properties.

Conventions of the embedding:
* JavaScript strings are `String`, arrays are `List`, numbers holding counts
  are `Nat`, fractional scores are `ℚ`, and the maintainability formula
  (which uses `Math.log`) is modelled over `ℝ`.
* `graphlib`'s `Graph` (directed, non-multi) is modelled by insertion-ordered
  node and edge lists; `setNode` inserts a missing node, `setEdge` creates the
  endpoints and creates-or-replaces the single edge for a `(v, w)` pair,
  exactly as the library behaves for a directed non-multigraph.
* `Map`/object lookups are association lists where an update shadows the
  previous binding; `Set`s are lists with membership checks.
* Filesystem probing (`fs.existsSync`) is an explicit environment parameter
  `envExists : String → Bool`.
-/

namespace McpTools

/-- One extracted relationship, as produced by the `extractRelationships`
helpers (`source`, `target`, `type`, optional named-import list, `weight`). -/
structure Relationship where
  source : String
  target : String
  rtype : String
  imports : List String := []
  weight : Nat
deriving Repr, DecidableEq

/-- One directed edge of the graph with its label (`{ type, weight }`). -/
structure Edge where
  v : String
  w : String
  etype : String
  weight : Nat
deriving Repr, DecidableEq

/-- The directed module graph: insertion-ordered node list and edge list
with at most one edge per ordered pair when built through `setEdge`. -/
structure Graph where
  nodes : List String
  edges : List Edge
deriving Repr, DecidableEq

namespace Graph

/-- `graph.hasNode(n)`. -/
def hasNode (g : Graph) (n : String) : Bool := g.nodes.contains n

/-- `graph.setNode(n, label)`: inserts the node if absent (labels carry no
information beyond the node id here: the source stores `{ path: n }`). -/
def setNode (g : Graph) (n : String) : Graph :=
  if g.hasNode n then g else { g with nodes := g.nodes ++ [n] }

/-- Whether an edge for the ordered pair `(v, w)` is present. -/
def hasEdgeB (g : Graph) (v w : String) : Bool :=
  g.edges.any (fun e => e.v == v && e.w == w)

/-- `graph.setEdge(v, w, label)`: ensures both endpoints exist as nodes and
creates or replaces the single `(v, w)` edge's label. -/
def setEdge (g : Graph) (v w : String) (etype : String) (weight : Nat) : Graph :=
  let g := (g.setNode v).setNode w
  if g.hasEdgeB v w then
    { g with edges := g.edges.map (fun e =>
        if e.v == v && e.w == w then { e with etype := etype, weight := weight } else e) }
  else
    { g with edges := g.edges ++ [⟨v, w, etype, weight⟩] }

/-- `graph.successors(n)`: targets of edges leaving `n`, in edge insertion
order (distinct whenever the graph was built through `setEdge`). -/
def successors (g : Graph) (n : String) : List String :=
  (g.edges.filter (fun e => e.v == n)).map (·.w)

/-- `graph.predecessors(n)`: sources of edges entering `n`. -/
def predecessors (g : Graph) (n : String) : List String :=
  (g.edges.filter (fun e => e.w == n)).map (·.v)

/-- `graph.edge(v, w)`: the label of the `(v, w)` edge, if present. -/
def edge (g : Graph) (v w : String) : Option Edge :=
  g.edges.find? (fun e => e.v == v && e.w == w)

/-- The empty graph, `new Graph({ directed: true })`. -/
def empty : Graph := ⟨[], []⟩

end Graph

/-- `buildGraph(relationships)` from `utils/graph-utils`: inserts each
relationship's endpoints as nodes and sets the `(source, target)` edge with
label `{ type, weight }`. -/
def buildGraph (relationships : List Relationship) : Graph :=
  relationships.foldl
    (fun g rel =>
      let g := g.setNode rel.source
      let g := g.setNode rel.target
      g.setEdge rel.source rel.target rel.rtype rel.weight)
    Graph.empty

/-- The loop in `generateDependencyGraph` that follows `buildGraph`:
`for (const file of files) if (!graph.hasNode(file)) graph.setNode(file, ...)`. -/
def ensureFileNodes (g : Graph) (files : List String) : Graph :=
  files.foldl (fun g f => g.setNode f) g

/-- `getShortName(path)`: the last `/`-separated segment, or the whole path
when that segment is empty (JS `parts[parts.length - 1] || path`). -/
def getShortName (path : String) : String :=
  let parts := path.splitOn "/"
  match parts.getLast? with
  | some last => if last == "" then path else last
  | none => path

/-- The node entries of `generateJsonGraph`: one `{ id, label, data }`
object per graph node, in node order. -/
def jsonGraphNodes (g : Graph) : List (String × String) :=
  g.nodes.map (fun n => (n, getShortName n))

/-- The edge entries of `generateJsonGraph`: one `{ source, target, data }`
object per graph edge. -/
def jsonGraphEdges (g : Graph) : List (String × String) :=
  g.edges.map (fun e => (e.v, e.w))

/-! ## Tarjan's strongly connected components (`findStronglyConnectedComponents`) -/

/-- The mutable state of `findStronglyConnectedComponents`: the `indices` and
`lowLinks` maps, the `onStack` set, the node `stack` (head of the list is the
top of the array-stack), the collected `sccs` and the running `index` counter.
Map updates shadow earlier bindings. -/
structure TarjanState where
  indices : List (String × Nat)
  lowLinks : List (String × Nat)
  onStack : List String
  stack : List String
  sccs : List (List String)
  index : Nat
deriving Repr, DecidableEq

/-- `map.get(k)!` on the association-list model of a `Map<string, number>`
(the default `0` is never reached on the states the algorithm produces). -/
def getN (m : List (String × Nat)) (k : String) : Nat :=
  (m.lookup k).getD 0

/-- `map.has(k)`. -/
def hasKey (m : List (String × Nat)) (k : String) : Bool :=
  (m.lookup k).isSome

/-- The `do { w = stack.pop(); ... } while (w !== node)` loop: splits the
stack into the popped part (top first, ending with `node`) and the rest. -/
def popUntil (node : String) : List String → List String × List String
  | [] => ([], [])
  | w :: rest =>
    if w == node then ([w], rest)
    else
      let (p, r) := popUntil node rest
      (w :: p, r)

/-- Popping one component off the stack when `lowLink(node) == index(node)`:
pops down to `node`, removes the popped nodes from `onStack`, and appends
`scc.reverse()` to `sccs` only when the component has more than one member. -/
def popScc (node : String) (st : TarjanState) : TarjanState :=
  let pr := popUntil node st.stack
  { st with
    stack := pr.2
    onStack := st.onStack.filter (fun x => !(pr.1.contains x))
    sccs := if 1 < pr.1.length then st.sccs ++ [pr.1.reverse] else st.sccs }

/-- The `for (const successor of successors)` loop of `strongConnect`:
recurse (through `sc`, the recursive call at the next-smaller fuel) into
unvisited successors, and fold the low-link updates. -/
def visitSuccs (sc : String → TarjanState → TarjanState) (node : String) :
    List String → TarjanState → TarjanState
  | [], st => st
  | s :: rest, st =>
    let st' :=
      if !(hasKey st.indices s) then
        let st1 := sc s st
        { st1 with
          lowLinks := (node, min (getN st1.lowLinks node) (getN st1.lowLinks s)) ::
            st1.lowLinks }
      else if st.onStack.contains s then
        { st with
          lowLinks := (node, min (getN st.lowLinks node) (getN st.indices s)) ::
            st.lowLinks }
      else st
    visitSuccs sc node rest st'

/-- `strongConnect(node)`: assigns `index`/`lowLink`, pushes the node, visits
its successors, and pops a component when the node is a root.  The `fuel`
argument bounds the recursion depth of the shallow embedding; since every
recursive call targets a previously unvisited node, any fuel larger than the
number of reachable nodes yields the source's behaviour. -/
def strongConnect (g : Graph) : Nat → String → TarjanState → TarjanState
  | 0, _, st => st
  | fuel + 1, node, st =>
    let st1 : TarjanState :=
      { st with
        indices := (node, st.index) :: st.indices
        lowLinks := (node, st.index) :: st.lowLinks
        index := st.index + 1
        stack := node :: st.stack
        onStack := node :: st.onStack }
    let st2 := visitSuccs (strongConnect g fuel) node (g.successors node) st1
    if getN st2.lowLinks node == getN st2.indices node then popScc node st2 else st2

/-- Fuel that always suffices for the embedded `strongConnect`: strictly more
than the number of nodes that could ever be visited. -/
def tarjanFuel (g : Graph) : Nat := g.nodes.length + g.edges.length + 1

/-- The initial, empty Tarjan state. -/
def initTarjanState : TarjanState := ⟨[], [], [], [], [], 0⟩

/-- `findStronglyConnectedComponents(graph)`: run `strongConnect` from every
not-yet-visited node, in node order, and return the collected components
(each listed in discovery order; only components with more than one member
are kept). -/
def findStronglyConnectedComponents (g : Graph) : List (List String) :=
  (g.nodes.foldl
    (fun st node =>
      if hasKey st.indices node then st else strongConnect g (tarjanFuel g) node st)
    initTarjanState).sccs

/-! ## Cycle records, severity and `findCycles` -/

/-- The four severity levels. -/
inductive Severity
  | low
  | medium
  | high
  | critical
deriving Repr, DecidableEq

/-- The `severityOrder` table used by the sort comparator
(`{ critical: 0, high: 1, medium: 2, low: 3 }`). -/
def severityOrder : Severity → Nat
  | .critical => 0
  | .high => 1
  | .medium => 2
  | .low => 3

/-- The `affectedNodes` accumulator of `determineCycleSeverity`: for each
cycle member, add the number of its predecessors that are not cycle members
(a predecessor of several cycle members is counted once per member). -/
def affectedNodesCount (cycle : List String) (g : Graph) : Nat :=
  cycle.foldl
    (fun acc node =>
      acc + ((g.predecessors node).filter (fun p => !(cycle.contains p))).length)
    0

/-- `determineCycleSeverity(cycle, graph)`. -/
def determineCycleSeverity (cycle : List String) (g : Graph) : Severity :=
  let length := cycle.length
  let affectedNodes := affectedNodesCount cycle g
  if 5 ≤ length ∨ 10 ≤ affectedNodes then .critical
  else if 4 ≤ length ∨ 5 ≤ affectedNodes then .high
  else if 3 ≤ length ∨ 2 ≤ affectedNodes then .medium
  else .low

/-- The consecutive pairs of a cycle, `(cycle[i], cycle[(i+1) % length])`. -/
def cyclePairs (cycle : List String) : List (String × String) :=
  cycle.zip (cycle.drop 1 ++ cycle.take 1)

/-- `graph.edge(from, to)?.weight ?? 1`. -/
def edgeWeightOr1 (g : Graph) (v w : String) : Nat :=
  match g.edge v w with
  | some e => e.weight
  | none => 1

/-- The weakest-link scan of `generateCycleSuggestions`: the first edge along
the cycle attaining the strictly smallest weight (`minWeight` starts at
`Infinity`, so the first pair always enters). -/
def weakestLink (g : Graph) (cycle : List String) : Option (String × String) :=
  ((cyclePairs cycle).foldl
    (fun acc p =>
      let weight := edgeWeightOr1 g p.1 p.2
      match acc with
      | none => some (p, weight)
      | some q => if weight < q.2 then some (p, weight) else some q)
    none).map (·.1)

/-- `generateCycleSuggestions(cycle, graph)`. -/
def generateCycleSuggestions (cycle : List String) (g : Graph) : List String :=
  let generic : List String :=
    [ "Extract shared code into a separate module that both can depend on.",
      "Use dependency injection to invert the dependency direction.",
      "Consider using interfaces/protocols to break the direct dependency.",
      "Evaluate if the circular dependency indicates a design issue that needs refactoring." ]
  match weakestLink g cycle with
  | some ft =>
      ("Consider breaking the dependency from '" ++ getShortName ft.1 ++ "' to '" ++
        getShortName ft.2 ++ "' as it appears to be the weakest link.") :: generic
  | none => generic

/-- One reported circular dependency. -/
structure DependencyCycle where
  nodes : List String
  length : Nat
  severity : Severity
  description : String
  suggestions : List String
deriving Repr, DecidableEq

/-- The description string
`Circular dependency involving N modules: a -> b -> a`. -/
def cycleDescription (scc : List String) : String :=
  "Circular dependency involving " ++ toString scc.length ++ " modules: " ++
    String.intercalate " -> " (scc.map getShortName) ++ " -> " ++
    getShortName (scc.headD "")

/-- The cycle record `findCycles` builds for one component. -/
def toCycle (g : Graph) (scc : List String) : DependencyCycle :=
  { nodes := scc
    length := scc.length
    severity := determineCycleSeverity scc g
    description := cycleDescription scc
    suggestions := generateCycleSuggestions scc g }

/-- The cycle list in insertion order, before the severity sort. -/
def rawCycles (g : Graph) : List DependencyCycle :=
  (findStronglyConnectedComponents g).map (toCycle g)

/-- Stable insertion of a cycle after all already-placed cycles whose
severity rank is `≤` its own: the array comes out ordered by
`severityOrder[a.severity] - severityOrder[b.severity]` with ties kept in
insertion order, as JavaScript's stable `Array.prototype.sort` guarantees. -/
def insertBySeverity (c : DependencyCycle) : List DependencyCycle → List DependencyCycle
  | [] => [c]
  | d :: ds =>
    if severityOrder d.severity ≤ severityOrder c.severity then
      d :: insertBySeverity c ds
    else c :: d :: ds

/-- The stable severity sort of `findCycles`. -/
def sortCyclesBySeverity (cycles : List DependencyCycle) : List DependencyCycle :=
  cycles.foldl (fun acc c => insertBySeverity c acc) []

/-- `findCycles(graph)`: the cycle records of the non-singleton strongly
connected components, sorted by severity (critical first, stable). -/
def findCycles (g : Graph) : List DependencyCycle :=
  sortCyclesBySeverity (rawCycles g)

/-- The `hasCycles` flag computed by `generateDependencyGraph`
(`cycles.length > 0`). -/
def hasCyclesFlag (g : Graph) : Bool :=
  decide (0 < (findCycles g).length)

/-! ## Acyclicity: the semantics of `isDAG` / `graphlib.alg.isAcyclic` -/

/-- The graph has an edge from `x` to `y`. -/
def HasEdge (g : Graph) (x y : String) : Prop :=
  ∃ e ∈ g.edges, e.v = x ∧ e.w = y

/-- Reflexive-transitive reachability along directed edges. -/
inductive Reaches (g : Graph) : String → String → Prop
  | refl (x : String) : Reaches g x x
  | head {x y z : String} : HasEdge g x y → Reaches g y z → Reaches g x z

/-- The graph contains a directed cycle: a nonempty edge path from some node
back to itself.  A self-loop edge is a cycle in this sense, exactly as for
graphlib's `topsort`/`isAcyclic`. -/
def HasDirectedCycle (g : Graph) : Prop :=
  ∃ x y, HasEdge g x y ∧ Reaches g y x

/-- One round of reachability expansion: add the target of every edge whose
source is already reached. -/
def stepReach (g : Graph) (vs : Finset String) : Finset String :=
  vs ∪ (g.edges.filter (fun e => decide (e.v ∈ vs))).toFinset.image (·.w)

/-- The set of nodes reachable from `src`, computed as the limit of the
expansion rounds (`edges.length + 1` rounds always reach the fixed point). -/
def reachSet (g : Graph) (src : String) : Finset String :=
  (stepReach g)^[g.edges.length + 1] {src}

/-- Decidable reachability check. -/
def reachableB (g : Graph) (src target : String) : Bool :=
  decide (target ∈ reachSet g src)

/-- Decidable cycle check: some edge `(v, w)` with `v` reachable back
from `w`. -/
def existsCycleB (g : Graph) : Bool :=
  g.edges.any (fun e => reachableB g e.w e.v)

/-- `isDAG(graph)` from `utils/graph-utils`.  The source delegates to the
third-party `graphlib.alg.isAcyclic`, whose documented behaviour — `true`
exactly when the graph has no directed cycle, a self-loop being a cycle — is
embedded here as the (verified, see `isDAG_eq_true_iff`) decidable check
`existsCycleB`. -/
def isDAG (g : Graph) : Bool :=
  !existsCycleB g

/-! ## `detectCircularDependencies` (tools/circular-detector) -/

/-- The per-severity summary counts. -/
structure CycleSummary where
  critical : Nat
  high : Nat
  medium : Nat
  low : Nat
deriving Repr, DecidableEq

/-- The output record of `detectCircularDependencies` (the fields computed
from the graph; `recommendations` is presentation text derived from the same
full cycle list). -/
structure DetectCircularOutput where
  hasCycles : Bool
  totalCycles : Nat
  cycles : List DependencyCycle
  summary : CycleSummary
  affectedFiles : List String
deriving Repr, DecidableEq

/-- JavaScript `Set` insertion-order accumulation of all nodes of all
cycles (`affectedFilesSet`), returned as `Array.from`. -/
def affectedFilesOf (allCycles : List DependencyCycle) : List String :=
  allCycles.foldl
    (fun acc c => c.nodes.foldl (fun a n => if a.contains n then a else a ++ [n]) acc)
    []

/-- The graph-to-output core of `detectCircularDependencies`: find all
cycles, truncate the reported list to `maxCycles`, and compute the summary,
`hasCycles`, `totalCycles` and `affectedFiles` over the full (untruncated)
cycle list. -/
def detectCircularFromGraph (g : Graph) (maxCycles : Nat) : DetectCircularOutput :=
  let allCycles := findCycles g
  { hasCycles := decide (0 < allCycles.length)
    totalCycles := allCycles.length
    cycles := allCycles.take maxCycles
    summary :=
      { critical := (allCycles.filter (fun c => c.severity == .critical)).length
        high := (allCycles.filter (fun c => c.severity == .high)).length
        medium := (allCycles.filter (fun c => c.severity == .medium)).length
        low := (allCycles.filter (fun c => c.severity == .low)).length }
    affectedFiles := affectedFilesOf allCycles }

/-! ## Module mapper: coupling metrics and group cohesion/coupling -/

/-- The per-node coupling metrics record. -/
structure CouplingMetrics where
  afferentCoupling : Nat
  efferentCoupling : Nat
  instability : ℚ
  abstractness : Nat
  distanceFromMainSequence : ℚ
deriving Repr, DecidableEq

/-- JS `\w` word characters (ASCII letters, digits, underscore). -/
def isWordChar (c : Char) : Bool :=
  c.isAlphanum || c == '_'

/-- Whether the word `w` occurs at the head of `s` followed by a word
boundary. -/
def wordAtHead (w s : List Char) : Bool :=
  List.isPrefixOf w s &&
    (match s.drop w.length with
     | [] => true
     | c :: _ => !isWordChar c)

/-- Scan for a word-boundary occurrence of `w` in `s`; `prevIsWord` records
whether the previous character was a word character. -/
def scanWord (w : List Char) : Bool → List Char → Bool
  | _, [] => false
  | prevIsWord, c :: rest =>
    (!prevIsWord && wordAtHead w (c :: rest)) || scanWord w (isWordChar c) rest

/-- Case-insensitive word-boundary containment, modelling a JS
`/\b(word)\b/i` regex test. -/
def containsWordCI (word : String) (s : String) : Bool :=
  scanWord word.toLower.data false s.toLower.data

/-- The abstractness heuristic of `calculateCouplingMetrics`:
`/\b(interface|abstract|types?|contracts?)\b/i.test(file)`. -/
def isAbstractFile (file : String) : Bool :=
  ["interface", "abstract", "type", "types", "contract", "contracts"].any
    (fun w => containsWordCI w file)

/-- The metrics computed for one file inside `calculateCouplingMetrics`. -/
def couplingMetricsFor (relationships : List Relationship) (file : String) :
    CouplingMetrics :=
  let incoming := (relationships.filter (fun r => r.target == file)).length
  let outgoing := (relationships.filter (fun r => r.source == file)).length
  let total := incoming + outgoing
  let instability : ℚ := if total = 0 then 0 else (outgoing : ℚ) / (total : ℚ)
  let isAbstract : Nat := if isAbstractFile file then 1 else 0
  let distance : ℚ := |(isAbstract : ℚ) + instability - 1|
  { afferentCoupling := incoming
    efferentCoupling := outgoing
    instability := instability
    abstractness := isAbstract
    distanceFromMainSequence := distance }

/-- `calculateCouplingMetrics(files, relationships)`: one metrics record per
file, keyed by the file path. -/
def calculateCouplingMetrics (files : List String)
    (relationships : List Relationship) : List (String × CouplingMetrics) :=
  files.map (fun f => (f, couplingMetricsFor relationships f))

/-- The relationships with both endpoints inside the group
(`internalRelationships`). -/
def internalRelCount (groupFiles : List String)
    (relationships : List Relationship) : Nat :=
  (relationships.filter
    (fun r => groupFiles.contains r.source && groupFiles.contains r.target)).length

/-- `calculateGroupCohesion(groupFiles, relationships)`. -/
def calculateGroupCohesion (groupFiles : List String)
    (relationships : List Relationship) : ℚ :=
  if groupFiles.length ≤ 1 then 1
  else
    let internalRelationships := internalRelCount groupFiles relationships
    let maxRelationships := groupFiles.length * (groupFiles.length - 1)
    if maxRelationships = 0 then 1
    else (internalRelationships : ℚ) / (maxRelationships : ℚ)

/-- The relationships crossing the group boundary
(`externalRelationships`: exactly one endpoint inside the group). -/
def crossingRelCount (groupFiles : List String)
    (relationships : List Relationship) : Nat :=
  (relationships.filter
    (fun r =>
      (groupFiles.contains r.source && !(groupFiles.contains r.target)) ||
      (!(groupFiles.contains r.source) && groupFiles.contains r.target))).length

/-- `calculateGroupCoupling(groupFiles, allFiles, relationships)`. -/
def calculateGroupCoupling (groupFiles : List String) (allFiles : List String)
    (relationships : List Relationship) : ℚ :=
  let otherFiles := allFiles.filter (fun f => !(groupFiles.contains f))
  if otherFiles.length = 0 then 0
  else
    (crossingRelCount groupFiles relationships : ℚ) /
      ((groupFiles.length * otherFiles.length + 1 : Nat) : ℚ)

/-- One named module group with its scores. -/
structure ModuleGroup where
  name : String
  modules : List String
  cohesion : ℚ
  coupling : ℚ
deriving Repr, DecidableEq

/-- The group-metrics assembly loop of `mapModuleRelationships`: one
`ModuleGroup` per entry of the grouping result. -/
def buildModuleGroups (fileGroups : List (String × List String))
    (files : List String) (relationships : List Relationship) : List ModuleGroup :=
  fileGroups.map
    (fun ng =>
      { name := ng.1
        modules := ng.2
        cohesion := calculateGroupCohesion ng.2 relationships
        coupling := calculateGroupCoupling ng.2 files relationships })

/-! ## Complexity analyzer: the maintainability index

JavaScript numbers (`Math.log`, division, `Math.round`) are modelled over
`ℝ`; no argument of `Math.log` produced by the analyzer is `≤ 0`, so the
real-valued model is exact up to floating-point rounding, which none of the
proved bounds are sensitive to. -/

/-- `Math.round`: round half toward positive infinity. -/
noncomputable def jsRound (x : ℝ) : ℤ := ⌊x + 1 / 2⌋

/-- `Math.max(0, Math.min(100, x))`. -/
noncomputable def clampScore (x : ℝ) : ℝ := max 0 (min 100 x)

/-- The unclamped maintainability formula
`171 - 5.2 * ln(avg + 1) - 0.23 * avg - 16.2 * ln(loc + 1)`. -/
noncomputable def maintainabilityRaw (avgComplexity linesOfCode : ℝ) : ℝ :=
  171 - 5.2 * Real.log (avgComplexity + 1) - 0.23 * avgComplexity -
    16.2 * Real.log (linesOfCode + 1)

/-- The maintainability index as both `calculateTsFileComplexity` and
`calculatePyFileComplexity` compute it: `avg = total / count` when the file
has functions and `1` otherwise, then clamp to `[0, 100]` and `Math.round`. -/
noncomputable def maintainabilityIndexOf
    (totalComplexity functionCount linesOfCode : ℕ) : ℤ :=
  let avgComplexity : ℝ :=
    if 0 < functionCount then (totalComplexity : ℝ) / (functionCount : ℝ) else 1
  jsRound (clampScore (maintainabilityRaw avgComplexity (linesOfCode : ℝ)))

/-- The maintainability value as the claim words it: no rounding, and
`avg = totalComplexity` (not `1`) when the file has no functions.  Stated
only to be compared against `maintainabilityIndexOf`. -/
noncomputable def claimMaintainability
    (totalComplexity functionCount linesOfCode : ℕ) : ℝ :=
  let avgComplexity : ℝ :=
    if 0 < functionCount then (totalComplexity : ℝ) / (functionCount : ℝ)
    else (totalComplexity : ℝ)
  clampScore (maintainabilityRaw avgComplexity (linesOfCode : ℝ))

/-- Per-function complexity facts (`FunctionComplexity`). -/
structure FunctionComplexity where
  name : String
  startLine : Nat
  endLine : Nat
  complexity : Nat
  parameterCount : Nat
  maxNestingDepth : Nat
deriving Repr, DecidableEq

/-- Per-file complexity record (`FileComplexity`, without the file path). -/
structure FileComplexity where
  cyclomaticComplexity : Nat
  functionCount : Nat
  linesOfCode : Nat
  maintainabilityIndex : ℤ
deriving Repr, DecidableEq

/-- The pure core of `calculateTsFileComplexity`, taking the per-function
complexities and the counted lines of code (`totalComplexity || 1` is the
reported file complexity). -/
noncomputable def tsFileComplexityCore (functions : List FunctionComplexity)
    (linesOfCode : Nat) : FileComplexity :=
  let totalComplexity := (functions.map (·.complexity)).sum
  { cyclomaticComplexity := if totalComplexity = 0 then 1 else totalComplexity
    functionCount := functions.length
    linesOfCode := linesOfCode
    maintainabilityIndex :=
      maintainabilityIndexOf totalComplexity functions.length linesOfCode }

/-- The pure core of `calculatePyFileComplexity`, taking the scanner's
file-level `complexity` and function count. -/
noncomputable def pyFileComplexityCore (complexity funcCount linesOfCode : Nat) :
    FileComplexity :=
  { cyclomaticComplexity := complexity
    functionCount := funcCount
    linesOfCode := linesOfCode
    maintainabilityIndex := maintainabilityIndexOf complexity funcCount linesOfCode }

/-! ## Python dependency classifier (parsers/python-parser) -/

/-- One classified dependency (`Dependency`; the TS fields `from`/`to`/`type`
are `fromFile`/`toPath`/`dtype` here). -/
structure Dependency where
  fromFile : String
  toPath : String
  dtype : String
  packageName : Option String := none
  importStatements : List String
deriving Repr, DecidableEq

/-- JavaScript `String.prototype.split(sep)` over character lists. -/
def splitChar (sep : Char) : List Char → List (List Char)
  | [] => [[]]
  | c :: rest =>
    let r := splitChar sep rest
    if c == sep then [] :: r
    else
      match r with
      | [] => [[c]]
      | h :: t => (c :: h) :: t

/-- `path.dirname` for the forward-slash paths the scanner produces: all
segments but the last, or `.` when there is a single segment. -/
def dirname (p : String) : String :=
  let parts := (splitChar '/' p.data).map (fun l => String.mk l)
  if parts.length ≤ 1 then "." else String.intercalate "/" parts.dropLast

/-- `path.join` for already-normalized segments. -/
def joinPath (a b : String) : String :=
  if a == "" then b else if b == "" then a else a ++ "/" ++ b

/-- The number of leading dots of an import specifier. -/
def countLeadingDots : List Char → Nat
  | '.' :: rest => countLeadingDots rest + 1
  | _ => 0

/-- `importPath.startsWith('.')`. -/
def isRelativeImport (s : String) : Bool :=
  match s.data with
  | '.' :: _ => true
  | _ => false

/-- The Python standard-library module list of `isPythonBuiltin`. -/
def pythonBuiltins : List String :=
  [ "abc", "aifc", "argparse", "array", "ast", "asynchat", "asyncio", "asyncore",
    "atexit", "audioop", "base64", "bdb", "binascii", "binhex", "bisect", "builtins",
    "bz2", "calendar", "cgi", "cgitb", "chunk", "cmath", "cmd", "code", "codecs",
    "codeop", "collections", "colorsys", "compileall", "concurrent", "configparser",
    "contextlib", "contextvars", "copy", "copyreg", "cProfile", "crypt", "csv",
    "ctypes", "curses", "dataclasses", "datetime", "dbm", "decimal", "difflib",
    "dis", "distutils", "doctest", "email", "encodings", "enum", "errno", "faulthandler",
    "fcntl", "filecmp", "fileinput", "fnmatch", "fractions", "ftplib", "functools",
    "gc", "getopt", "getpass", "gettext", "glob", "graphlib", "grp", "gzip", "hashlib",
    "heapq", "hmac", "html", "http", "idlelib", "imaplib", "imghdr", "imp", "importlib",
    "inspect", "io", "ipaddress", "itertools", "json", "keyword", "lib2to3", "linecache",
    "locale", "logging", "lzma", "mailbox", "mailcap", "marshal", "math", "mimetypes",
    "mmap", "modulefinder", "multiprocessing", "netrc", "nis", "nntplib", "numbers",
    "operator", "optparse", "os", "ossaudiodev", "parser", "pathlib", "pdb", "pickle",
    "pickletools", "pipes", "pkgutil", "platform", "plistlib", "poplib", "posix",
    "posixpath", "pprint", "profile", "pstats", "pty", "pwd", "py_compile", "pyclbr",
    "pydoc", "queue", "quopri", "random", "re", "readline", "reprlib", "resource",
    "rlcompleter", "runpy", "sched", "secrets", "select", "selectors", "shelve",
    "shlex", "shutil", "signal", "site", "smtpd", "smtplib", "sndhdr", "socket",
    "socketserver", "spwd", "sqlite3", "ssl", "stat", "statistics", "string", "stringprep",
    "struct", "subprocess", "sunau", "symbol", "symtable", "sys", "sysconfig", "syslog",
    "tabnanny", "tarfile", "telnetlib", "tempfile", "termios", "test", "textwrap",
    "threading", "time", "timeit", "tkinter", "token", "tokenize", "trace", "traceback",
    "tracemalloc", "tty", "turtle", "turtledemo", "types", "typing", "unicodedata",
    "unittest", "urllib", "uu", "uuid", "venv", "warnings", "wave", "weakref", "webbrowser",
    "winreg", "winsound", "wsgiref", "xdrlib", "xml", "xmlrpc", "zipapp", "zipfile",
    "zipimport", "zlib", "zoneinfo" ]

/-- `moduleName.split('.')[0]`. -/
def dotBaseName (s : String) : String :=
  String.mk ((splitChar '.' s.data).headD [])

/-- `isPythonBuiltin(moduleName)`. -/
def isPythonBuiltin (moduleName : String) : Bool :=
  pythonBuiltins.contains (dotBaseName moduleName)

/-- The directory a relative Python import resolves against in the source:
the originating file's directory, moved up one directory per leading dot
*after the first* (`for (let i = 1; i < dots; i++)`). -/
def pyTargetDir (fromFile : String) (dots : Nat) : String :=
  dirname^[dots - 1] (dirname fromFile)

/-- Appending the dot-separated module segments to the base directory
(`if (part) resolvedPath = path.join(resolvedPath, part)`). -/
def pyResolvedPath (targetDir : String) (moduleName : String) : String :=
  ((splitChar '.' moduleName.data).map (fun l => String.mk l)).foldl
    (fun acc part => if part != "" then joinPath acc part else acc) targetDir

/-- `classifyPythonDependency(importPath, fromFile, basePath)`, with the
filesystem's `fs.existsSync` passed in as `envExists`. -/
def classifyPythonDependency (envExists : String → Bool)
    (importPath fromFile basePath : String) : Dependency :=
  if isPythonBuiltin importPath then
    { fromFile := fromFile
      toPath := importPath
      dtype := "builtin"
      packageName := some importPath
      importStatements := [importPath] }
  else if isRelativeImport importPath then
    let dots := countLeadingDots importPath.data
    let moduleName := String.mk (importPath.data.drop dots)
    let resolvedPath := pyResolvedPath (pyTargetDir fromFile dots) moduleName
    let possiblePaths := [resolvedPath ++ ".py", joinPath resolvedPath "__init__.py"]
    let finalPath := (possiblePaths.find? envExists).getD resolvedPath
    { fromFile := fromFile
      toPath := finalPath
      dtype := "internal"
      importStatements := [importPath] }
  else
    let slashed := String.mk
      (importPath.data.map (fun c => if c == '.' then '/' else c))
    let possibleLocalPaths :=
      [ joinPath basePath (slashed ++ ".py"),
        joinPath (joinPath basePath slashed) "__init__.py",
        joinPath (joinPath basePath "src") (slashed ++ ".py"),
        joinPath (joinPath (joinPath basePath "src") slashed) "__init__.py" ]
    match possibleLocalPaths.find? envExists with
    | some localPath =>
      { fromFile := fromFile
        toPath := localPath
        dtype := "internal"
        importStatements := [importPath] }
    | none =>
      { fromFile := fromFile
        toPath := importPath
        dtype := "external"
        packageName := some (dotBaseName importPath)
        importStatements := [importPath] }

/-- The relative-import resolution as the claim words it — walking up one
directory per leading dot, so a single leading dot already moves to the
parent of the originating file's directory.  Stated only to be compared
against `classifyPythonDependency`. -/
def claimClassifyPythonRelative (envExists : String → Bool)
    (importPath fromFile : String) : Dependency :=
  let dots := countLeadingDots importPath.data
  let moduleName := String.mk (importPath.data.drop dots)
  let resolvedPath := pyResolvedPath (dirname^[dots] (dirname fromFile)) moduleName
  let possiblePaths := [resolvedPath ++ ".py", joinPath resolvedPath "__init__.py"]
  let finalPath := (possiblePaths.find? envExists).getD resolvedPath
  { fromFile := fromFile
    toPath := finalPath
    dtype := "internal"
    importStatements := [importPath] }

/-! ## Concrete example graphs used by the claim checks -/

/-- The relationship `A imports B`. -/
def relAB : Relationship := { source := "A", target := "B", rtype := "import", weight := 1 }

/-- The relationship `B imports A`. -/
def relBA : Relationship := { source := "B", target := "A", rtype := "import", weight := 1 }

/-- The self-import relationship `A imports A`. -/
def relAA : Relationship := { source := "A", target := "A", rtype := "import", weight := 1 }

/-- The two-node graph `A → B → A`. -/
def twoHopGraph : Graph := buildGraph [relAB, relBA]

/-- The one-node graph with only the self-import edge `A → A`. -/
def selfImportGraph : Graph := buildGraph [relAA]

/-! ## The size bound on reported components

`popScc` appends a component only under the `scc.length > 1` guard, and no
other operation of the algorithm touches `sccs`, so every reported component
— and hence every reported cycle — has at least two members. -/

/-- The invariant `every collected component has ≥ 2 members`. -/
def SccsGe2 (st : TarjanState) : Prop :=
  ∀ l ∈ st.sccs, 2 ≤ l.length

theorem popScc_sccs_ge2 {node : String} {st : TarjanState} (h : SccsGe2 st) :
    SccsGe2 (popScc node st) := by
  intro l hl
  unfold popScc at hl
  dsimp at hl
  split at hl
  · rcases List.mem_append.mp hl with h1 | h1
    · exact h l h1
    · rcases List.mem_singleton.mp h1 with rfl
      rw [List.length_reverse]
      omega
  · exact h l hl

theorem visitSuccs_sccs_ge2 {sc : String → TarjanState → TarjanState}
    (hsc : ∀ s st, SccsGe2 st → SccsGe2 (sc s st)) (node : String) :
    ∀ (succs : List String) (st : TarjanState),
      SccsGe2 st → SccsGe2 (visitSuccs sc node succs st) := by
  intro succs
  induction succs with
  | nil => intro st h; simpa [visitSuccs] using h
  | cons s rest ih =>
    intro st h
    rw [visitSuccs]
    apply ih
    dsimp only
    split
    · exact hsc s st h
    · split
      · exact h
      · exact h

theorem strongConnect_sccs_ge2 (g : Graph) :
    ∀ (fuel : Nat) (node : String) (st : TarjanState),
      SccsGe2 st → SccsGe2 (strongConnect g fuel node st) := by
  intro fuel
  induction fuel with
  | zero => intro node st h; simpa [strongConnect] using h
  | succ fuel ih =>
    intro node st h
    rw [strongConnect]
    have h2 := visitSuccs_sccs_ge2 (fun s st hst => ih s st hst) node
      (g.successors node)
      { st with
        indices := (node, st.index) :: st.indices
        lowLinks := (node, st.index) :: st.lowLinks
        index := st.index + 1
        stack := node :: st.stack
        onStack := node :: st.onStack } h
    split
    · exact popScc_sccs_ge2 h2
    · exact h2

theorem findStronglyConnectedComponents_ge2 (g : Graph) :
    ∀ l ∈ findStronglyConnectedComponents g, 2 ≤ l.length := by
  unfold findStronglyConnectedComponents
  have main : ∀ (nodes : List String) (st : TarjanState), SccsGe2 st →
      SccsGe2 (nodes.foldl
        (fun st node =>
          if hasKey st.indices node then st else strongConnect g (tarjanFuel g) node st)
        st) := by
    intro nodes
    induction nodes with
    | nil => intro st h; exact h
    | cons n rest ih =>
      intro st h
      rw [List.foldl_cons]
      apply ih
      split
      · exact h
      · exact strongConnect_sccs_ge2 g _ n st h
  exact main g.nodes initTarjanState (by intro l hl; simp [initTarjanState] at hl)

theorem rawCycles_length_ge2 (g : Graph) :
    ∀ c ∈ rawCycles g, 2 ≤ c.length := by
  intro c hc
  rcases List.mem_map.mp hc with ⟨scc, hscc, rfl⟩
  exact findStronglyConnectedComponents_ge2 g scc hscc

/-! ## The severity sort: permutation, ordering and stability -/

theorem insertBySeverity_perm (c : DependencyCycle) (l : List DependencyCycle) :
    List.Perm (insertBySeverity c l) (c :: l) := by
  induction l with
  | nil => rfl
  | cons d ds ih =>
    rw [insertBySeverity]
    split
    · exact (ih.cons d).trans (List.Perm.swap c d ds)
    · rfl

theorem sortCyclesBySeverity_perm (l : List DependencyCycle) :
    List.Perm (sortCyclesBySeverity l) l := by
  have main : ∀ (l acc : List DependencyCycle),
      List.Perm (l.foldl (fun acc c => insertBySeverity c acc) acc) (l ++ acc) := by
    intro l
    induction l with
    | nil => intro acc; simp
    | cons x xs ih =>
      intro acc
      rw [List.foldl_cons]
      refine ((ih (insertBySeverity x acc)).trans ?_)
      refine (List.Perm.append_left xs (insertBySeverity_perm x acc)).trans ?_
      exact List.perm_middle
  simpa using main l []

/-- The ordering produced by the comparator
`severityOrder[a.severity] - severityOrder[b.severity]`. -/
def CyclesSorted (l : List DependencyCycle) : Prop :=
  l.Pairwise (fun a b => severityOrder a.severity ≤ severityOrder b.severity)

theorem insertBySeverity_sorted {c : DependencyCycle} {l : List DependencyCycle}
    (h : CyclesSorted l) : CyclesSorted (insertBySeverity c l) := by
  induction l with
  | nil => simp [insertBySeverity, CyclesSorted]
  | cons d ds ih =>
    rcases List.pairwise_cons.mp h with ⟨hd, hds⟩
    rw [insertBySeverity]
    split
    · rename_i hle
      refine List.pairwise_cons.mpr ⟨?_, ih hds⟩
      intro x hx
      have hx' : x ∈ c :: ds := (insertBySeverity_perm c ds).mem_iff.mp hx
      rcases List.mem_cons.mp hx' with rfl | hx''
      · exact hle
      · exact hd x hx''
    · rename_i hgt
      have hlt : severityOrder c.severity < severityOrder d.severity :=
        Nat.lt_of_not_le hgt
      refine List.pairwise_cons.mpr ⟨?_, h⟩
      intro x hx
      rcases List.mem_cons.mp hx with rfl | hx'
      · exact Nat.le_of_lt hlt
      · exact Nat.le_trans (Nat.le_of_lt hlt) (hd x hx')

theorem insertBySeverity_filter (c : DependencyCycle) (s : Severity) :
    ∀ l : List DependencyCycle, CyclesSorted l →
      (insertBySeverity c l).filter (fun d => d.severity == s) =
        (if c.severity = s then
          l.filter (fun d => d.severity == s) ++ [c]
         else l.filter (fun d => d.severity == s)) := by
  intro l
  induction l with
  | nil =>
    intro _
    by_cases hc : c.severity = s <;> simp [insertBySeverity, hc]
  | cons d ds ih =>
    intro h
    rcases List.pairwise_cons.mp h with ⟨hd, hds⟩
    rw [insertBySeverity]
    split
    · rename_i hle
      by_cases hdc : d.severity = s <;> by_cases hc : c.severity = s <;>
        simp [List.filter_cons, hdc, hc, ih hds]
    · rename_i hgt
      have hlt : severityOrder c.severity < severityOrder d.severity :=
        Nat.lt_of_not_le hgt
      by_cases hc : c.severity = s
      · have hnone : ∀ x ∈ d :: ds, ¬ x.severity = s := by
          intro x hx hxs
          have hge : severityOrder d.severity ≤ severityOrder x.severity := by
            rcases List.mem_cons.mp hx with rfl | hx'
            · exact Nat.le_refl _
            · exact hd x hx'
          rw [hxs, ← hc] at hge
          omega
        have hfil : (d :: ds).filter (fun d => d.severity == s) = [] := by
          apply List.filter_eq_nil_iff.mpr
          intro x hx
          simpa using hnone x hx
        simp [List.filter_cons, hc, hfil,
          hnone d (List.mem_cons_self d ds),
          List.filter_eq_nil_iff.mp hfil]
      · simp [List.filter_cons, hc]

theorem sortCyclesBySeverity_sorted (l : List DependencyCycle) :
    CyclesSorted (sortCyclesBySeverity l) := by
  have main : ∀ (l acc : List DependencyCycle), CyclesSorted acc →
      CyclesSorted (l.foldl (fun acc c => insertBySeverity c acc) acc) := by
    intro l
    induction l with
    | nil => intro acc h; exact h
    | cons x xs ih =>
      intro acc h
      rw [List.foldl_cons]
      exact ih _ (insertBySeverity_sorted h)
  exact main l [] (by simp [CyclesSorted])

theorem sortCyclesBySeverity_filter (l : List DependencyCycle) (s : Severity) :
    (sortCyclesBySeverity l).filter (fun d => d.severity == s) =
      l.filter (fun d => d.severity == s) := by
  have main : ∀ (l acc : List DependencyCycle), CyclesSorted acc →
      (l.foldl (fun acc c => insertBySeverity c acc) acc).filter
          (fun d => d.severity == s) =
        acc.filter (fun d => d.severity == s) ++
          l.filter (fun d => d.severity == s) := by
    intro l
    induction l with
    | nil => intro acc h; simp
    | cons x xs ih =>
      intro acc h
      rw [List.foldl_cons, ih _ (insertBySeverity_sorted h),
        insertBySeverity_filter x s acc h]
      by_cases hx : x.severity = s <;> simp [List.filter_cons, hx]
  simpa using main l [] (by simp [CyclesSorted])

theorem findCycles_perm (g : Graph) : List.Perm (findCycles g) (rawCycles g) :=
  sortCyclesBySeverity_perm (rawCycles g)

theorem findCycles_length_ge2 (g : Graph) :
    ∀ c ∈ findCycles g, 2 ≤ c.length := by
  intro c hc
  exact rawCycles_length_ge2 g c ((findCycles_perm g).mem_iff.mp hc)

theorem rawCycles_fields (g : Graph) :
    ∀ c ∈ rawCycles g,
      c.severity = determineCycleSeverity c.nodes g ∧ c.length = c.nodes.length := by
  intro c hc
  rcases List.mem_map.mp hc with ⟨scc, _, rfl⟩
  exact ⟨rfl, rfl⟩

/-! ## Claims C1 and C2 -/

/-- The relationship `P imports A`. -/
def relPA : Relationship := { source := "P", target := "A", rtype := "import", weight := 1 }

/-- The relationship `P imports B`. -/
def relPB : Relationship := { source := "P", target := "B", rtype := "import", weight := 1 }

/-- The graph `A ↔ B` together with one external module `P` importing both
cycle members. -/
def sharedPredGraph : Graph := buildGraph [relAB, relBA, relPA, relPB]

/-- C1: `findCycles` retains only strongly connected components with at
least two members: every reported cycle has length ≥ 2 (for every graph); on
the two-hop graph `A → B → A` exactly one cycle is reported, with node list
`[A, B]` and length `2`; and on the graph whose only edge is the direct
self-import `A → A` no cycle is reported. -/
theorem claim_C1 :
    (∀ g : Graph, ∀ c ∈ findCycles g, 2 ≤ c.length) ∧
    (findCycles twoHopGraph).map (fun c => (c.nodes, c.length)) = [(["A", "B"], 2)] ∧
    findCycles selfImportGraph = [] := by
  refine ⟨findCycles_length_ge2, by decide, by decide⟩

/-- Witness for C1 at a concrete input: the one cycle of the two-hop graph
has length at least 2. -/
theorem claim_C1_witness :
    2 ≤ (toCycle twoHopGraph ["A", "B"]).length :=
  claim_C1.1 twoHopGraph (toCycle twoHopGraph ["A", "B"])
    (by
      have h : findCycles twoHopGraph = [toCycle twoHopGraph ["A", "B"]] := by rfl
      rw [h]
      exact List.mem_singleton_self _)

/-- The severity thresholds exactly as the spec words them, as a function of
the cycle length and the affected-node count. -/
def severityFromThresholds (length affectedNodes : Nat) : Severity :=
  if 5 ≤ length ∨ 10 ≤ affectedNodes then .critical
  else if 4 ≤ length ∨ 5 ≤ affectedNodes then .high
  else if 3 ≤ length ∨ 2 ≤ affectedNodes then .medium
  else .low

/-- `affectedNodes` as the claim words it: the number of *distinct*
predecessors of cycle members that are not themselves in the cycle.  Stated
only to be compared with the source's `affectedNodesCount`. -/
def claimDistinctAffected (cycle : List String) (g : Graph) : Nat :=
  ((cycle.foldl
      (fun acc node => acc ++ (g.predecessors node).filter (fun p => !(cycle.contains p)))
      []).dedup).length

/-- C2 counterexample: on the graph `A ↔ B` with one module `P` importing
both `A` and `B`, the code counts the shared predecessor once per cycle
member (`affectedNodes = 2`, severity `medium`), while the claim's distinct
count gives `1` (severity `low`); so severity is not computed from the
number of distinct predecessors. -/
theorem claim_C2_counterexample :
    ¬ (∀ c ∈ findCycles sharedPredGraph,
        c.severity =
          severityFromThresholds c.length (claimDistinctAffected c.nodes sharedPredGraph)) := by
  decide

/-- C2 (amended): for every retained cycle, severity is computed from the
cycle's length and from `affectedNodes`, the *total* count over cycle
members of predecessors outside the cycle (a module preceding several cycle
members is counted once per member): length ≥ 5 or affectedNodes ≥ 10 gives
critical; otherwise length ≥ 4 or affectedNodes ≥ 5 gives high; otherwise
length ≥ 3 or affectedNodes ≥ 2 gives medium; otherwise low.  `findCycles`
returns the cycles sorted with critical first (nondecreasing
`severityOrder`), as a permutation of the discovery-order list `rawCycles`,
with ties broken by insertion order (the per-severity sublists keep the
`rawCycles` order). -/
theorem claim_C2 (g : Graph) :
    (∀ c ∈ findCycles g,
      c.severity = severityFromThresholds c.length (affectedNodesCount c.nodes g)) ∧
    CyclesSorted (findCycles g) ∧
    List.Perm (findCycles g) (rawCycles g) ∧
    (∀ s : Severity,
      (findCycles g).filter (fun d => d.severity == s) =
        (rawCycles g).filter (fun d => d.severity == s)) := by
  refine ⟨?_, sortCyclesBySeverity_sorted _, findCycles_perm g,
    fun s => sortCyclesBySeverity_filter _ s⟩
  intro c hc
  rcases rawCycles_fields g c ((findCycles_perm g).mem_iff.mp hc) with ⟨hsev, hlen⟩
  rw [hsev, hlen]
  rfl

/-! ## Correctness of the reachability closure behind `isDAG` -/

theorem Reaches.snoc {g : Graph} {x y z : String} (hxy : Reaches g x y) :
    HasEdge g y z → Reaches g x z := by
  induction hxy with
  | refl w => intro h; exact Reaches.head h (Reaches.refl _)
  | head he _ ih => intro h; exact Reaches.head he (ih h)

theorem subset_stepReach (g : Graph) (vs : Finset String) : vs ⊆ stepReach g vs :=
  Finset.subset_union_left

theorem subset_iterate_stepReach (g : Graph) :
    ∀ (k : Nat) (X : Finset String), X ⊆ (stepReach g)^[k] X := by
  intro k
  induction k with
  | zero => intro X; simp
  | succ k ih =>
    intro X
    rw [Function.iterate_succ_apply]
    exact (subset_stepReach g X).trans (ih (stepReach g X))

theorem mem_stepReach {g : Graph} {vs : Finset String} {y : String} :
    y ∈ stepReach g vs ↔ y ∈ vs ∨ ∃ e ∈ g.edges, e.v ∈ vs ∧ e.w = y := by
  unfold stepReach
  simp only [Finset.mem_union, Finset.mem_image, List.mem_toFinset, List.mem_filter,
    decide_eq_true_eq]
  constructor
  · rintro (h | ⟨e, ⟨he, hv⟩, hw⟩)
    · exact Or.inl h
    · exact Or.inr ⟨e, he, hv, hw⟩
  · rintro (h | ⟨e, he, hv, hw⟩)
    · exact Or.inl h
    · exact Or.inr ⟨e, ⟨he, hv⟩, hw⟩

theorem fixpoint_closed {g : Graph} {S : Finset String} (hS : stepReach g S = S)
    {x y : String} (hx : x ∈ S) (hxy : HasEdge g x y) : y ∈ S := by
  rcases hxy with ⟨e, he, hev, hew⟩
  have hmem : y ∈ stepReach g S := mem_stepReach.mpr (Or.inr ⟨e, he, by rwa [hev], hew⟩)
  rwa [hS] at hmem

/-- Every set the expansion rounds can produce lives inside the source node
together with all edge targets. -/
def reachUniv (g : Graph) (src : String) : Finset String :=
  insert src (g.edges.toFinset.image (·.w))

theorem stepReach_subset_univ {g : Graph} {src : String} {vs : Finset String}
    (h : vs ⊆ reachUniv g src) : stepReach g vs ⊆ reachUniv g src := by
  intro y hy
  rcases mem_stepReach.mp hy with hy | ⟨e, he, _, rfl⟩
  · exact h hy
  · exact Finset.mem_insert_of_mem (Finset.mem_image.mpr ⟨e, List.mem_toFinset.mpr he, rfl⟩)

theorem iterate_subset_univ (g : Graph) (src : String) :
    ∀ k, (stepReach g)^[k] {src} ⊆ reachUniv g src := by
  intro k
  induction k with
  | zero =>
    intro x hx
    rw [Function.iterate_zero_apply] at hx
    rcases Finset.mem_singleton.mp hx with rfl
    exact Finset.mem_insert_self _ _
  | succ k ih =>
    rw [Function.iterate_succ_apply']
    exact stepReach_subset_univ ih

theorem reachUniv_card_le (g : Graph) (src : String) :
    (reachUniv g src).card ≤ g.edges.length + 1 := by
  calc (reachUniv g src).card ≤ (g.edges.toFinset.image (·.w)).card + 1 :=
        Finset.card_insert_le _ _
    _ ≤ g.edges.toFinset.card + 1 := by
        exact Nat.add_le_add_right (Finset.card_image_le) 1
    _ ≤ g.edges.length + 1 := Nat.add_le_add_right (List.toFinset_card_le _) 1

theorem reachSet_fixpoint (g : Graph) (src : String) :
    stepReach g (reachSet g src) = reachSet g src := by
  by_cases hstall :
    ∃ k < g.edges.length + 1,
      (stepReach g)^[k + 1] ({src} : Finset String) = (stepReach g)^[k] {src}
  · rcases hstall with ⟨k, hk, heq⟩
    have hstable : ∀ j, (stepReach g)^[k + j] ({src} : Finset String) =
        (stepReach g)^[k] {src} := by
      intro j
      induction j with
      | zero => rfl
      | succ j ih =>
        have h1 : k + (j + 1) = (k + j) + 1 := by omega
        rw [h1, Function.iterate_succ_apply', ih]
        have h2 : stepReach g ((stepReach g)^[k] ({src} : Finset String)) =
            (stepReach g)^[k + 1] {src} := (Function.iterate_succ_apply' _ _ _).symm
        rw [h2, heq]
    have hn : g.edges.length + 1 = k + (g.edges.length + 1 - k) := by omega
    show stepReach g ((stepReach g)^[g.edges.length + 1] {src}) =
      (stepReach g)^[g.edges.length + 1] {src}
    rw [hn, hstable]
    have h2 : stepReach g ((stepReach g)^[k] ({src} : Finset String)) =
        (stepReach g)^[k + 1] {src} := (Function.iterate_succ_apply' _ _ _).symm
    rw [h2, heq]
  · exfalso
    push_neg at hstall
    have hgrow : ∀ k, k ≤ g.edges.length + 1 →
        k + 1 ≤ ((stepReach g)^[k] ({src} : Finset String)).card := by
      intro k
      induction k with
      | zero => intro _; simp
      | succ k ih =>
        intro hk
        have h1 : k + 1 ≤ ((stepReach g)^[k] ({src} : Finset String)).card :=
          ih (by omega)
        have hne : (stepReach g)^[k + 1] ({src} : Finset String) ≠
            (stepReach g)^[k] {src} := hstall k (by omega)
        have hsub : (stepReach g)^[k] ({src} : Finset String) ⊆
            (stepReach g)^[k + 1] {src} := by
          rw [Function.iterate_succ_apply']
          exact subset_stepReach g _
        have hss : (stepReach g)^[k] ({src} : Finset String) ⊂
            (stepReach g)^[k + 1] {src} :=
          Finset.ssubset_iff_subset_ne.mpr ⟨hsub, fun h => hne h.symm⟩
        have := Finset.card_lt_card hss
        omega
    have hcard := hgrow (g.edges.length + 1) le_rfl
    have hle : ((stepReach g)^[g.edges.length + 1] ({src} : Finset String)).card ≤
        g.edges.length + 1 :=
      le_trans (Finset.card_le_card (iterate_subset_univ g src _)) (reachUniv_card_le g src)
    omega

theorem mem_iterate_reaches (g : Graph) (src : String) :
    ∀ (k : Nat) (x : String),
      x ∈ (stepReach g)^[k] ({src} : Finset String) → Reaches g src x := by
  intro k
  induction k with
  | zero =>
    intro x hx
    rw [Function.iterate_zero_apply] at hx
    rcases Finset.mem_singleton.mp hx with rfl
    exact Reaches.refl _
  | succ k ih =>
    intro x hx
    rw [Function.iterate_succ_apply'] at hx
    rcases mem_stepReach.mp hx with hx | ⟨e, he, hev, rfl⟩
    · exact ih x hx
    · exact (ih e.v hev).snoc ⟨e, he, rfl, rfl⟩

theorem reaches_mem_reachSet {g : Graph} {src x t : String} (h : Reaches g x t) :
    x ∈ reachSet g src → t ∈ reachSet g src := by
  induction h with
  | refl w => exact id
  | head he _ ih =>
    intro hx
    exact ih (fixpoint_closed (reachSet_fixpoint g src) hx he)

theorem src_mem_reachSet (g : Graph) (src : String) : src ∈ reachSet g src :=
  subset_iterate_stepReach g _ {src} (Finset.mem_singleton_self src)

theorem reachableB_iff (g : Graph) (s t : String) :
    reachableB g s t = true ↔ Reaches g s t := by
  unfold reachableB
  rw [decide_eq_true_iff]
  constructor
  · intro h
    exact mem_iterate_reaches g s _ t h
  · intro h
    exact reaches_mem_reachSet h (src_mem_reachSet g s)

theorem existsCycleB_iff (g : Graph) :
    existsCycleB g = true ↔ HasDirectedCycle g := by
  unfold existsCycleB
  rw [List.any_eq_true]
  constructor
  · rintro ⟨e, he, hr⟩
    exact ⟨e.v, e.w, ⟨e, he, rfl, rfl⟩, (reachableB_iff g _ _).mp hr⟩
  · rintro ⟨x, y, ⟨e, he, rfl, rfl⟩, hr⟩
    exact ⟨e, he, (reachableB_iff g _ _).mpr hr⟩

theorem isDAG_eq_true_iff (g : Graph) : isDAG g = true ↔ ¬ HasDirectedCycle g := by
  unfold isDAG
  constructor
  · intro h hc
    rw [(existsCycleB_iff g).mpr hc] at h
    simp at h
  · intro h
    cases hb : existsCycleB g with
    | false => simp
    | true => exact absurd ((existsCycleB_iff g).mp hb) h

/-! ## Claim C3 -/

/-- C3 counterexample: on the one-node graph whose only edge is the
self-loop `A → A`, `findCycles` reports nothing (`hasCycle` is false) while
`isDAG` is false, so `isDAG` is not the negation of `hasCycle` on graphs
whose only cycles are self-loop edges — refuting the claim as stated. -/
theorem claim_C3_counterexample :
    hasCyclesFlag selfImportGraph = false ∧
    isDAG selfImportGraph = false ∧
    isDAG selfImportGraph ≠ !hasCyclesFlag selfImportGraph := by
  refine ⟨by decide, by decide, by decide⟩

/-- C3 (amended): for every graph G, `hasCycle(G)` is true iff
`findCycles(G)` returns at least one entry with length ≥ 2; `isDAG(G)` is
true iff G contains no directed cycle at all, where a self-loop edge counts
as a cycle; consequently `isDAG` is *not* the negation of `hasCycle` on
graphs whose only cycles are self-loop edges — the two disagree on the
one-node self-import graph. -/
theorem claim_C3 :
    (∀ g : Graph, hasCyclesFlag g = true ↔ ∃ c ∈ findCycles g, 2 ≤ c.length) ∧
    (∀ g : Graph, isDAG g = true ↔ ¬ HasDirectedCycle g) ∧
    isDAG selfImportGraph ≠ !hasCyclesFlag selfImportGraph := by
  refine ⟨?_, isDAG_eq_true_iff, by decide⟩
  intro g
  unfold hasCyclesFlag
  rw [decide_eq_true_iff]
  constructor
  · intro h
    match hc : findCycles g with
    | [] => rw [hc] at h; simp at h
    | c :: rest =>
      have hmem : c ∈ findCycles g := by
        rw [hc]
        exact List.mem_cons_self c rest
      exact ⟨c, List.mem_cons_self c rest, findCycles_length_ge2 g c hmem⟩
  · rintro ⟨c, hc, _⟩
    exact List.length_pos.mpr (List.ne_nil_of_mem hc)

/-- Witness for C3 at a concrete input: on the two-hop graph the
`hasCycles` flag agrees with the existence of a reported length-≥2 cycle. -/
theorem claim_C3_witness :
    hasCyclesFlag twoHopGraph = true ↔ ∃ c ∈ findCycles twoHopGraph, 2 ≤ c.length :=
  claim_C3.1 twoHopGraph

/-! ## Node-set lemmas for the graph builder (claim C4) -/

theorem mem_setNode {g : Graph} {n x : String} :
    x ∈ (g.setNode n).nodes ↔ x ∈ g.nodes ∨ x = n := by
  unfold Graph.setNode Graph.hasNode
  split
  · rename_i h
    constructor
    · exact Or.inl
    · rintro (h' | rfl)
      · exact h'
      · exact (List.elem_iff).mp h
  · simp

theorem setNode_nodup {g : Graph} (h : g.nodes.Nodup) (n : String) :
    (g.setNode n).nodes.Nodup := by
  unfold Graph.setNode Graph.hasNode
  split
  · exact h
  · rename_i hc
    have hn : n ∉ g.nodes := by
      intro hmem
      exact hc ((List.elem_iff).mpr hmem)
    simp [List.nodup_append, h, hn]

theorem setEdge_nodes (g : Graph) (v w t : String) (wt : Nat) :
    (Graph.setEdge g v w t wt).nodes = ((g.setNode v).setNode w).nodes := by
  simp only [Graph.setEdge]
  split <;> rfl

theorem buildGraph_step_nodes (g : Graph) (rel : Relationship) (x : String) :
    x ∈ ((g.setNode rel.source).setNode rel.target |>.setEdge rel.source rel.target
        rel.rtype rel.weight).nodes ↔
      x ∈ g.nodes ∨ x = rel.source ∨ x = rel.target := by
  rw [setEdge_nodes]
  simp only [mem_setNode]
  constructor
  · rintro ((((h | h) | h) | h) | h) <;> tauto
  · intro h
    tauto

theorem buildGraph_aux_mem (rels : List Relationship) :
    ∀ (g : Graph) (x : String),
      (x ∈ (rels.foldl
        (fun g rel =>
          let g := g.setNode rel.source
          let g := g.setNode rel.target
          g.setEdge rel.source rel.target rel.rtype rel.weight) g).nodes ↔
        x ∈ g.nodes ∨ ∃ r ∈ rels, x = r.source ∨ x = r.target) := by
  induction rels with
  | nil => intro g x; simp
  | cons r rest ih =>
    intro g x
    rw [List.foldl_cons]
    rw [ih]
    dsimp only
    rw [buildGraph_step_nodes]
    constructor
    · rintro ((h | h | h) | ⟨r', hr', h⟩)
      · exact Or.inl h
      · exact Or.inr ⟨r, List.mem_cons_self r rest, Or.inl h⟩
      · exact Or.inr ⟨r, List.mem_cons_self r rest, Or.inr h⟩
      · exact Or.inr ⟨r', List.mem_cons_of_mem r hr', h⟩
    · rintro (h | ⟨r', hr', h⟩)
      · exact Or.inl (Or.inl h)
      · rcases List.mem_cons.mp hr' with rfl | hr''
        · rcases h with h | h
          · exact Or.inl (Or.inr (Or.inl h))
          · exact Or.inl (Or.inr (Or.inr h))
        · exact Or.inr ⟨r', hr'', h⟩

theorem buildGraph_aux_nodup (rels : List Relationship) :
    ∀ g : Graph, g.nodes.Nodup →
      (rels.foldl
        (fun g rel =>
          let g := g.setNode rel.source
          let g := g.setNode rel.target
          g.setEdge rel.source rel.target rel.rtype rel.weight) g).nodes.Nodup := by
  induction rels with
  | nil => intro g h; exact h
  | cons r rest ih =>
    intro g h
    rw [List.foldl_cons]
    apply ih
    dsimp only
    rw [setEdge_nodes]
    exact setNode_nodup (setNode_nodup (setNode_nodup (setNode_nodup h _) _) _) _

theorem mem_buildGraph_nodes (rels : List Relationship) (x : String) :
    x ∈ (buildGraph rels).nodes ↔ ∃ r ∈ rels, x = r.source ∨ x = r.target := by
  unfold buildGraph
  rw [buildGraph_aux_mem]
  simp [Graph.empty]

theorem buildGraph_nodes_nodup (rels : List Relationship) :
    (buildGraph rels).nodes.Nodup := by
  unfold buildGraph
  exact buildGraph_aux_nodup rels Graph.empty (by simp [Graph.empty])

theorem mem_ensureFileNodes (files : List String) :
    ∀ (g : Graph) (x : String),
      x ∈ (ensureFileNodes g files).nodes ↔ x ∈ g.nodes ∨ x ∈ files := by
  induction files with
  | nil => intro g x; simp [ensureFileNodes]
  | cons f rest ih =>
    intro g x
    unfold ensureFileNodes at ih ⊢
    rw [List.foldl_cons, ih, mem_setNode]
    constructor
    · rintro ((h | h) | h)
      · exact Or.inl h
      · exact Or.inr (by rw [h]; exact List.mem_cons_self f rest)
      · exact Or.inr (List.mem_cons_of_mem f h)
    · rintro (h | h)
      · exact Or.inl (Or.inl h)
      · rcases List.mem_cons.mp h with rfl | h'
        · exact Or.inl (Or.inr rfl)
        · exact Or.inr h'

theorem ensureFileNodes_nodup (files : List String) :
    ∀ g : Graph, g.nodes.Nodup → (ensureFileNodes g files).nodes.Nodup := by
  induction files with
  | nil => intro g h; exact h
  | cons f rest ih =>
    intro g h
    unfold ensureFileNodes at ih ⊢
    rw [List.foldl_cons]
    exact ih _ (setNode_nodup h f)

/-- C4: when every relationship endpoint lies in the (duplicate-free) file
list — which is what `extractRelationships` guarantees with
`includeExternal = false` — the graph produced by `buildGraph` followed by
the ensure-all-files loop has node set exactly the file list: membership
coincides, the node count equals the file count, and therefore the JSON
serialization has exactly one `nodes` entry per file. -/
theorem claim_C4 (files : List String) (rels : List Relationship)
    (hnodup : files.Nodup)
    (hend : ∀ r ∈ rels, r.source ∈ files ∧ r.target ∈ files) :
    (∀ x, x ∈ (ensureFileNodes (buildGraph rels) files).nodes ↔ x ∈ files) ∧
    (ensureFileNodes (buildGraph rels) files).nodes.length = files.length ∧
    (jsonGraphNodes (ensureFileNodes (buildGraph rels) files)).length = files.length := by
  have hmem : ∀ x, x ∈ (ensureFileNodes (buildGraph rels) files).nodes ↔ x ∈ files := by
    intro x
    rw [mem_ensureFileNodes, mem_buildGraph_nodes]
    constructor
    · rintro (⟨r, hr, h | h⟩ | h)
      · rw [h]; exact (hend r hr).1
      · rw [h]; exact (hend r hr).2
      · exact h
    · exact Or.inr
  have hnd : (ensureFileNodes (buildGraph rels) files).nodes.Nodup :=
    ensureFileNodes_nodup files _ (buildGraph_nodes_nodup rels)
  have hlen : (ensureFileNodes (buildGraph rels) files).nodes.length = files.length := by
    have hfin : (ensureFileNodes (buildGraph rels) files).nodes.toFinset = files.toFinset := by
      apply Finset.ext
      intro x
      simp only [List.mem_toFinset]
      exact hmem x
    calc (ensureFileNodes (buildGraph rels) files).nodes.length
        = (ensureFileNodes (buildGraph rels) files).nodes.toFinset.card :=
          (List.toFinset_card_of_nodup hnd).symm
      _ = files.toFinset.card := by rw [hfin]
      _ = files.length := List.toFinset_card_of_nodup hnodup
  refine ⟨hmem, hlen, ?_⟩
  unfold jsonGraphNodes
  rw [List.length_map]
  exact hlen

/-- Witness for C4 at a concrete input: three files, one of them isolated,
with the single relationship `A imports B`. -/
theorem claim_C4_witness :
    (∀ x, x ∈ (ensureFileNodes (buildGraph [relAB]) ["A", "B", "C"]).nodes ↔
      x ∈ ["A", "B", "C"]) ∧
    (ensureFileNodes (buildGraph [relAB]) ["A", "B", "C"]).nodes.length = 3 ∧
    (jsonGraphNodes (ensureFileNodes (buildGraph [relAB]) ["A", "B", "C"])).length = 3 :=
  claim_C4 ["A", "B", "C"] [relAB] (by decide) (by decide)

/-! ## Edge collapsing in the builder (claim C5) -/

theorem setNode_edges (g : Graph) (n : String) : (g.setNode n).edges = g.edges := by
  unfold Graph.setNode
  split <;> rfl

theorem pair_eq_of_match {e : Edge} {v w : String}
    (h : (e.v == v && e.w == w) = true) : e.v = v ∧ e.w = w := by
  rcases Bool.and_eq_true_iff.mp h with ⟨h1, h2⟩
  exact ⟨beq_iff_eq.mp h1, beq_iff_eq.mp h2⟩

theorem pair_match_of_eq {e : Edge} {v w : String} (h1 : e.v = v) (h2 : e.w = w) :
    (e.v == v && e.w == w) = true :=
  Bool.and_eq_true_iff.mpr ⟨beq_iff_eq.mpr h1, beq_iff_eq.mpr h2⟩

/-- The replacement function of `setEdge`'s collapse branch. -/
def replaceEdge (v w t : String) (wt : Nat) (e : Edge) : Edge :=
  if e.v == v && e.w == w then { e with etype := t, weight := wt } else e

theorem setEdge_edges (g : Graph) (v w t : String) (wt : Nat) :
    (g.setEdge v w t wt).edges =
      if g.edges.any (fun e => e.v == v && e.w == w) then
        g.edges.map (replaceEdge v w t wt)
      else g.edges ++ [⟨v, w, t, wt⟩] := by
  simp only [Graph.setEdge, Graph.hasEdgeB, setNode_edges, replaceEdge]
  split <;> rfl

theorem replaceEdge_pair (v w t : String) (wt : Nat) (v' w' : String) (e : Edge) :
    ((replaceEdge v w t wt e).v == v' && (replaceEdge v w t wt e).w == w') =
      (e.v == v' && e.w == w') := by
  unfold replaceEdge
  split <;> rfl

theorem replaceEdge_of_match {v w : String} (t : String) (wt : Nat) {e : Edge}
    (h : (e.v == v && e.w == w) = true) : replaceEdge v w t wt e = ⟨v, w, t, wt⟩ := by
  rcases pair_eq_of_match h with ⟨h1, h2⟩
  unfold replaceEdge
  rw [if_pos h, ← h1, ← h2]

theorem replaceEdge_of_not_match {v w : String} (t : String) (wt : Nat) {e : Edge}
    (h : ¬ (e.v == v && e.w == w) = true) : replaceEdge v w t wt e = e := by
  unfold replaceEdge
  rw [if_neg h]

theorem length_filter_map_congr {α : Type} (f : α → α) (q : α → Bool)
    (hf : ∀ a, q (f a) = q a) :
    ∀ l : List α, ((l.map f).filter q).length = (l.filter q).length := by
  intro l
  induction l with
  | nil => rfl
  | cons a rest ih =>
    rw [List.map_cons, List.filter_cons, List.filter_cons, hf]
    cases hqa : q a with
    | true => simp [ih]
    | false => simp [ih]

theorem find?_map_congr {α : Type} (f : α → α) (q : α → Bool)
    (hf : ∀ a, q (f a) = q a) (hfix : ∀ a, q a = true → f a = a) :
    ∀ l : List α, (l.map f).find? q = l.find? q := by
  intro l
  induction l with
  | nil => rfl
  | cons a rest ih =>
    rw [List.map_cons, List.find?_cons, List.find?_cons, hf]
    cases hqa : q a with
    | true => rw [hfix a hqa]
    | false => exact ih

theorem find?_map_replace_const {α : Type} (f : α → α) (q : α → Bool) (b : α)
    (htrue : ∀ a, q a = true → f a = b) (hfalse : ∀ a, q a = false → f a = a)
    (hqb : q b = true) :
    ∀ l : List α, (l.map f).find? q = (if l.any q then some b else none) := by
  intro l
  induction l with
  | nil => rfl
  | cons a rest ih =>
    rw [List.map_cons, List.find?_cons, List.any_cons]
    cases hqa : q a with
    | true =>
      rw [htrue a hqa, hqb]
      simp
    | false =>
      rw [hfalse a hqa, hqa, ih]
      simp

/-- At most one edge per ordered pair — the collapsing invariant of
`setEdge`-built graphs. -/
def AtMostOnePerPair (g : Graph) : Prop :=
  ∀ v w : String, ((g.edges.filter (fun e => e.v == v && e.w == w)).length ≤ 1)

theorem setEdge_atMostOne {g : Graph} (h : AtMostOnePerPair g)
    (v w t : String) (wt : Nat) : AtMostOnePerPair (g.setEdge v w t wt) := by
  intro v' w'
  rw [setEdge_edges]
  split
  · rename_i hEx
    rw [length_filter_map_congr _ _ (replaceEdge_pair v w t wt v' w')]
    exact h v' w'
  · rename_i hEx
    rw [List.filter_append, List.length_append]
    by_cases hp : v' = v ∧ w' = w
    · rcases hp with ⟨rfl, rfl⟩
      have h0 : g.edges.filter (fun e => e.v == v' && e.w == w') = [] := by
        apply List.filter_eq_nil_iff.mpr
        intro e he hpe
        exact hEx (List.any_eq_true.mpr ⟨e, he, hpe⟩)
      rw [h0]
      simp [List.filter_cons, pair_match_of_eq rfl rfl]
    · have hnew : (([⟨v, w, t, wt⟩] : List Edge).filter
          (fun e => e.v == v' && e.w == w')).length = 0 := by
        have : ((⟨v, w, t, wt⟩ : Edge).v == v' && (⟨v, w, t, wt⟩ : Edge).w == w') = false := by
          cases hq : ((⟨v, w, t, wt⟩ : Edge).v == v' && (⟨v, w, t, wt⟩ : Edge).w == w') with
          | false => rfl
          | true =>
            rcases pair_eq_of_match hq with ⟨h1, h2⟩
            exact absurd ⟨h1.symm, h2.symm⟩ hp
        simp [List.filter_cons, this]
      rw [hnew]
      have := h v' w'
      omega

theorem buildGraph_atMostOne (rels : List Relationship) :
    AtMostOnePerPair (buildGraph rels) := by
  unfold buildGraph
  have main : ∀ (rels : List Relationship) (g : Graph), AtMostOnePerPair g →
      AtMostOnePerPair (rels.foldl
        (fun g rel =>
          let g := g.setNode rel.source
          let g := g.setNode rel.target
          g.setEdge rel.source rel.target rel.rtype rel.weight) g) := by
    intro rels
    induction rels with
    | nil => intro g h; exact h
    | cons r rest ih =>
      intro g h
      rw [List.foldl_cons]
      apply ih
      apply setEdge_atMostOne
      intro v' w'
      show ((((g.setNode r.source).setNode r.target).edges.filter
        (fun e => e.v == v' && e.w == w')).length ≤ 1)
      rw [setNode_edges, setNode_edges]
      exact h v' w'
  apply main
  intro v' w'
  simp [Graph.empty]

theorem setNode_edge (g : Graph) (n v' w' : String) :
    (g.setNode n).edge v' w' = g.edge v' w' := by
  unfold Graph.edge
  rw [setNode_edges]

theorem edge_setEdge_self (g : Graph) (v w t : String) (wt : Nat) :
    (g.setEdge v w t wt).edge v w = some ⟨v, w, t, wt⟩ := by
  unfold Graph.edge
  rw [setEdge_edges]
  split
  · rename_i hEx
    rw [find?_map_replace_const (replaceEdge v w t wt) _ ⟨v, w, t, wt⟩
      (fun a ha => replaceEdge_of_match t wt ha)
      (fun a ha => replaceEdge_of_not_match t wt (by rw [ha]; simp))
      (pair_match_of_eq rfl rfl) g.edges]
    rw [if_pos hEx]
  · rename_i hEx
    have h0 : g.edges.find? (fun e => e.v == v && e.w == w) = none := by
      apply List.find?_eq_none.mpr
      intro e he hpe
      exact hEx (List.any_eq_true.mpr ⟨e, he, hpe⟩)
    rw [List.find?_append, h0]
    simp [List.find?_cons, pair_match_of_eq rfl rfl]

theorem edge_setEdge_other (g : Graph) {v w v' w' : String} (t : String) (wt : Nat)
    (hne : ¬(v' = v ∧ w' = w)) :
    (g.setEdge v w t wt).edge v' w' = g.edge v' w' := by
  unfold Graph.edge
  rw [setEdge_edges]
  split
  · rename_i hEx
    apply find?_map_congr _ _ (replaceEdge_pair v w t wt v' w')
    intro a ha
    apply replaceEdge_of_not_match
    intro hmatch
    rcases pair_eq_of_match hmatch with ⟨h1, h2⟩
    rcases pair_eq_of_match ha with ⟨h1', h2'⟩
    exact hne ⟨by rw [← h1', h1], by rw [← h2', h2]⟩
  · rename_i hEx
    rw [List.find?_append]
    have hnew : (([⟨v, w, t, wt⟩] : List Edge).find?
        (fun e => e.v == v' && e.w == w')) = none := by
      apply List.find?_eq_none.mpr
      intro e he hpe
      rcases List.mem_singleton.mp he with rfl
      rcases pair_eq_of_match hpe with ⟨h1, h2⟩
      exact hne ⟨h1.symm, h2.symm⟩
    rw [hnew]
    simp

theorem buildGraph_edge_eq (v w : String) :
    ∀ (rels : List Relationship) (g : Graph),
      (rels.foldl
        (fun g rel =>
          let g := g.setNode rel.source
          let g := g.setNode rel.target
          g.setEdge rel.source rel.target rel.rtype rel.weight) g).edge v w =
        (match (rels.filter (fun r => r.source == v && r.target == w)).getLast? with
         | some r => some ⟨v, w, r.rtype, r.weight⟩
         | none => g.edge v w) := by
  intro rels
  induction rels with
  | nil => intro g; rfl
  | cons r rest ih =>
    intro g
    rw [List.foldl_cons, ih, List.filter_cons]
    by_cases hr : (r.source == v && r.target == w) = true
    · rcases Bool.and_eq_true_iff.mp hr with ⟨h1, h2⟩
      have hsv : r.source = v := beq_iff_eq.mp h1
      have htw : r.target = w := beq_iff_eq.mp h2
      rw [if_pos hr]
      cases hrest : rest.filter (fun r => r.source == v && r.target == w) with
      | nil =>
        simp only [List.getLast?_singleton]
        have heq : (((g.setNode r.source).setNode r.target).setEdge r.source r.target
            r.rtype r.weight).edge v w = some ⟨v, w, r.rtype, r.weight⟩ := by
          rw [hsv, htw]
          exact edge_setEdge_self _ v w r.rtype r.weight
        exact heq
      | cons x xs =>
        rw [List.getLast?_cons_cons]
        cases hlast : (x :: xs).getLast? with
        | none => simp at hlast
        | some y => rfl
    · rw [if_neg hr]
      cases hrest : rest.filter (fun r => r.source == v && r.target == w) with
      | nil =>
        have hne : ¬(v = r.source ∧ w = r.target) := by
          rintro ⟨hv, hw⟩
          exact hr (Bool.and_eq_true_iff.mpr
            ⟨beq_iff_eq.mpr hv.symm, beq_iff_eq.mpr hw.symm⟩)
        show (((g.setNode r.source).setNode r.target).setEdge r.source r.target
          r.rtype r.weight).edge v w = g.edge v w
        rw [edge_setEdge_other _ r.rtype r.weight hne, setNode_edge, setNode_edge]
      | cons x xs => rfl

/-- C5 counterexample: two relationships from `A` to `B` with import counts
2 and 3 collapse to a single edge whose weight is 3 — the weight of the last
contributing relationship — not the sum 5. -/
theorem claim_C5_counterexample :
    (buildGraph
      [ { source := "A", target := "B", rtype := "import", weight := 2 },
        { source := "A", target := "B", rtype := "import", weight := 3 } ]).edges =
      [⟨"A", "B", "import", 3⟩] ∧ (3 : Nat) ≠ 2 + 3 :=
  ⟨rfl, by decide⟩

/-- C5 (amended): when several relationships share the same source and
target pair, the graph builder collapses them into a single edge (at most
one edge per ordered pair survives) whose weight — and type — are those of
the *last* contributing relationship, `setEdge` replacing the previous
label rather than summing the import counts. -/
theorem claim_C5 (rels : List Relationship) (v w : String) :
    ((buildGraph rels).edges.filter (fun e => e.v == v && e.w == w)).length ≤ 1 ∧
    (buildGraph rels).edge v w =
      (match (rels.filter (fun r => r.source == v && r.target == w)).getLast? with
       | some r => some ⟨v, w, r.rtype, r.weight⟩
       | none => none) := by
  refine ⟨buildGraph_atMostOne rels v w, ?_⟩
  unfold buildGraph
  rw [buildGraph_edge_eq]
  match (rels.filter (fun r => r.source == v && r.target == w)).getLast? with
  | some r => rfl
  | none => rfl

/-! ## Group metrics (claim C6) and coupling metrics (claim C8) -/

/-- C6 counterexample: the singleton group `["A"]` over the files
`["A", "B"]` with the single boundary-crossing relationship `A → B` has
`externalCoupling = 1/2 ≠ 0`, refuting the claim that a single-file group
always has coupling 0 regardless of crossing edges. -/
theorem claim_C6_counterexample :
    ¬ (∀ grp ∈ buildModuleGroups [("g", ["A"])] ["A", "B"] [relAB],
        grp.modules.length = 1 → grp.cohesion = 1 ∧ grp.coupling = 0) := by
  intro h
  have hmem := h
    { name := "g"
      modules := ["A"]
      cohesion := calculateGroupCohesion ["A"] [relAB]
      coupling := calculateGroupCoupling ["A"] ["A", "B"] [relAB] }
    (List.mem_singleton_self _) rfl
  have hc : calculateGroupCoupling ["A"] ["A", "B"] [relAB] = 1 / 2 := by
    have h1 : crossingRelCount ["A"] [relAB] = 1 := by decide
    have h2 : ((["A", "B"] : List String).filter
        (fun f => !((["A"] : List String).contains f))).length = 1 := by decide
    simp only [calculateGroupCoupling, h1, h2]
    norm_num
  rw [hc] at hmem
  exact absurd hmem.2 (by norm_num)

/-- C6 (amended): every module group with exactly one file has cohesion 1.0;
its external coupling is nonnegative and equals 0 exactly when no other
files exist or no relationship crosses the group boundary — with crossing
relationships and other files present it is `crossings / (#others + 1)`,
which is not 0. -/
theorem claim_C6 (fileGroups : List (String × List String)) (files : List String)
    (relationships : List Relationship) :
    ∀ grp ∈ buildModuleGroups fileGroups files relationships,
      grp.modules.length = 1 →
      grp.cohesion = 1 ∧
      0 ≤ grp.coupling ∧
      (grp.coupling = 0 ↔
        (files.filter (fun x => !(grp.modules.contains x))).length = 0 ∨
        crossingRelCount grp.modules relationships = 0) := by
  intro grp hgrp hlen
  rcases List.mem_map.mp hgrp with ⟨ng, _, rfl⟩
  dsimp only at hlen ⊢
  refine ⟨?_, ?_, ?_⟩
  · unfold calculateGroupCohesion
    rw [if_pos (by omega)]
  · unfold calculateGroupCoupling
    by_cases hz : (files.filter (fun f => !(ng.2.contains f))).length = 0
    · rw [if_pos hz]
    · rw [if_neg hz]
      have hpos : (0 : ℚ) <
          ((ng.2.length * (files.filter (fun f => !(ng.2.contains f))).length + 1 : Nat) : ℚ) := by
        exact_mod_cast Nat.succ_pos _
      exact div_nonneg (Nat.cast_nonneg _) (le_of_lt hpos)
  · unfold calculateGroupCoupling
    by_cases hz : (files.filter (fun f => !(ng.2.contains f))).length = 0
    · rw [if_pos hz]
      simp only [true_iff]
      exact Or.inl hz
    · rw [if_neg hz]
      have hpos : (0 : ℚ) <
          ((ng.2.length * (files.filter (fun f => !(ng.2.contains f))).length + 1 : Nat) : ℚ) := by
        exact_mod_cast Nat.succ_pos _
      rw [div_eq_zero_iff]
      constructor
      · rintro (h0 | h0)
        · exact Or.inr (by exact_mod_cast h0)
        · exact absurd h0 (ne_of_gt hpos)
      · rintro (h0 | h0)
        · exact absurd h0 hz
        · exact Or.inl (by exact_mod_cast h0)

/-- The single group record of the C6 witness instance. -/
def c6grp : ModuleGroup :=
  { name := "g"
    modules := ["A"]
    cohesion := calculateGroupCohesion ["A"] [relAB]
    coupling := calculateGroupCoupling ["A"] ["A", "B"] [relAB] }

/-- Witness for C6 at a concrete input: the singleton group of the
counterexample configuration. -/
theorem claim_C6_witness :
    c6grp.cohesion = 1 ∧ 0 ≤ c6grp.coupling ∧
    (c6grp.coupling = 0 ↔
      ((["A", "B"].filter (fun x => !(c6grp.modules.contains x))).length = 0 ∨
        crossingRelCount c6grp.modules [relAB] = 0)) :=
  claim_C6 [("g", ["A"])] ["A", "B"] [relAB] c6grp
    (by
      rw [show buildModuleGroups [("g", ["A"])] ["A", "B"] [relAB] = [c6grp] from rfl]
      exact List.mem_singleton_self _)
    rfl

/-- C8: every record of the coupling metrics satisfies the instability
formula — efferent/(afferent+efferent) when the node has at least one
relationship, 0 when it has none — and instability, abstractness and the
distance from the main sequence all stay in their documented ranges. -/
theorem claim_C8 (files : List String) (relationships : List Relationship) :
    ∀ (f : String) (m : CouplingMetrics),
      (f, m) ∈ calculateCouplingMetrics files relationships →
      (m.instability =
        if m.afferentCoupling + m.efferentCoupling = 0 then 0
        else (m.efferentCoupling : ℚ) /
          ((m.afferentCoupling + m.efferentCoupling : Nat) : ℚ)) ∧
      0 ≤ m.instability ∧ m.instability ≤ 1 ∧
      (m.abstractness = 0 ∨ m.abstractness = 1) ∧
      0 ≤ m.distanceFromMainSequence ∧ m.distanceFromMainSequence ≤ 1 := by
  intro f m hm
  rcases List.mem_map.mp hm with ⟨f', _, hpair⟩
  have h1 : f' = f := congrArg Prod.fst hpair
  subst h1
  have h2 : m = couplingMetricsFor relationships f' := (congrArg Prod.snd hpair).symm
  subst h2
  set n1 := (relationships.filter (fun r => r.target == f')).length with hn1
  set n2 := (relationships.filter (fun r => r.source == f')).length with hn2
  have e_aff : (couplingMetricsFor relationships f').afferentCoupling = n1 := rfl
  have e_eff : (couplingMetricsFor relationships f').efferentCoupling = n2 := rfl
  have e_inst : (couplingMetricsFor relationships f').instability =
      (if n1 + n2 = 0 then (0 : ℚ) else (n2 : ℚ) / ((n1 + n2 : Nat) : ℚ)) := rfl
  have e_abs : (couplingMetricsFor relationships f').abstractness =
      (if isAbstractFile f' then 1 else 0) := rfl
  have e_dist : (couplingMetricsFor relationships f').distanceFromMainSequence =
      |((if isAbstractFile f' then (1 : Nat) else 0 : Nat) : ℚ) +
        (if n1 + n2 = 0 then (0 : ℚ) else (n2 : ℚ) / ((n1 + n2 : Nat) : ℚ)) - 1| := rfl
  have hi0 : (0 : ℚ) ≤
      (if n1 + n2 = 0 then (0 : ℚ) else (n2 : ℚ) / ((n1 + n2 : Nat) : ℚ)) := by
    by_cases h0 : n1 + n2 = 0
    · rw [if_pos h0]
    · rw [if_neg h0]
      have hpos : (0 : ℚ) < ((n1 + n2 : Nat) : ℚ) := by
        exact_mod_cast Nat.pos_of_ne_zero h0
      exact div_nonneg (Nat.cast_nonneg _) (le_of_lt hpos)
  have hi1 : (if n1 + n2 = 0 then (0 : ℚ) else (n2 : ℚ) / ((n1 + n2 : Nat) : ℚ)) ≤ 1 := by
    by_cases h0 : n1 + n2 = 0
    · rw [if_pos h0]
      norm_num
    · rw [if_neg h0]
      have hpos : (0 : ℚ) < ((n1 + n2 : Nat) : ℚ) := by
        exact_mod_cast Nat.pos_of_ne_zero h0
      rw [div_le_one hpos]
      exact_mod_cast Nat.le_add_left _ _
  refine ⟨?_, ?_, ?_, ?_, ?_, ?_⟩
  · rw [e_inst, e_aff, e_eff]
  · rw [e_inst]
    exact hi0
  · rw [e_inst]
    exact hi1
  · rw [e_abs]
    by_cases habs : isAbstractFile f' = true
    · rw [if_pos habs]
      exact Or.inr rfl
    · rw [if_neg habs]
      exact Or.inl rfl
  · rw [e_dist]
    exact abs_nonneg _
  · rw [e_dist]
    have hA : ((if isAbstractFile f' then (1 : Nat) else 0 : Nat) : ℚ) = 0 ∨
        ((if isAbstractFile f' then (1 : Nat) else 0 : Nat) : ℚ) = 1 := by
      by_cases habs : isAbstractFile f' = true
      · rw [if_pos habs]
        right
        norm_num
      · rw [if_neg habs]
        left
        norm_num
    rw [abs_le]
    rcases hA with hA | hA <;> rw [hA] <;> exact ⟨by linarith, by linarith⟩

/-- Witness for C8 at a concrete input: the metrics record of file `A` over
the single relationship `A → B`. -/
theorem claim_C8_witness :
    ((couplingMetricsFor [relAB] "A").instability =
      if (couplingMetricsFor [relAB] "A").afferentCoupling +
          (couplingMetricsFor [relAB] "A").efferentCoupling = 0 then 0
      else ((couplingMetricsFor [relAB] "A").efferentCoupling : ℚ) /
        (((couplingMetricsFor [relAB] "A").afferentCoupling +
          (couplingMetricsFor [relAB] "A").efferentCoupling : Nat) : ℚ)) ∧
    0 ≤ (couplingMetricsFor [relAB] "A").instability ∧
    (couplingMetricsFor [relAB] "A").instability ≤ 1 ∧
    ((couplingMetricsFor [relAB] "A").abstractness = 0 ∨
      (couplingMetricsFor [relAB] "A").abstractness = 1) ∧
    0 ≤ (couplingMetricsFor [relAB] "A").distanceFromMainSequence ∧
    (couplingMetricsFor [relAB] "A").distanceFromMainSequence ≤ 1 :=
  claim_C8 ["A", "B"] [relAB] "A" (couplingMetricsFor [relAB] "A")
    (by
      rw [show calculateCouplingMetrics ["A", "B"] [relAB] =
        [("A", couplingMetricsFor [relAB] "A"), ("B", couplingMetricsFor [relAB] "B")] from rfl]
      exact List.mem_cons_self _ _)

/-- Witness for C2 at a concrete input: the severity of the cycle of
`sharedPredGraph` follows the thresholds applied to the code's
affected-node count. -/
theorem claim_C2_witness :
    (toCycle sharedPredGraph ["A", "B"]).severity =
      severityFromThresholds (toCycle sharedPredGraph ["A", "B"]).length
        (affectedNodesCount (toCycle sharedPredGraph ["A", "B"]).nodes sharedPredGraph) :=
  (claim_C2 sharedPredGraph).1 (toCycle sharedPredGraph ["A", "B"])
    (by
      have h : findCycles sharedPredGraph = [toCycle sharedPredGraph ["A", "B"]] := by rfl
      rw [h]
      exact List.mem_singleton_self _)

/-! ## The detector output assembly (claim C10) -/

theorem foldl_insertUniq_mem (nodes : List String) :
    ∀ (acc : List String) (x : String),
      x ∈ nodes.foldl (fun a n => if a.contains n then a else a ++ [n]) acc ↔
        x ∈ acc ∨ x ∈ nodes := by
  induction nodes with
  | nil => intro acc x; simp
  | cons n rest ih =>
    intro acc x
    rw [List.foldl_cons, ih]
    by_cases hc : acc.contains n = true
    · rw [if_pos hc]
      have hn : n ∈ acc := List.elem_iff.mp hc
      constructor
      · rintro (h | h)
        · exact Or.inl h
        · exact Or.inr (List.mem_cons_of_mem n h)
      · rintro (h | h)
        · exact Or.inl h
        · rcases List.mem_cons.mp h with rfl | h'
          · exact Or.inl hn
          · exact Or.inr h'
    · rw [if_neg hc]
      constructor
      · rintro (h | h)
        · rcases List.mem_append.mp h with h' | h'
          · exact Or.inl h'
          · rcases List.mem_singleton.mp h' with rfl
            exact Or.inr (List.mem_cons_self _ _)
        · exact Or.inr (List.mem_cons_of_mem n h)
      · rintro (h | h)
        · exact Or.inl (List.mem_append.mpr (Or.inl h))
        · rcases List.mem_cons.mp h with rfl | h'
          · exact Or.inl (List.mem_append.mpr (Or.inr (List.mem_singleton_self _)))
          · exact Or.inr h'

theorem foldl_insertUniq_nodup (nodes : List String) :
    ∀ acc : List String, acc.Nodup →
      (nodes.foldl (fun a n => if a.contains n then a else a ++ [n]) acc).Nodup := by
  induction nodes with
  | nil => intro acc h; exact h
  | cons n rest ih =>
    intro acc h
    rw [List.foldl_cons]
    apply ih
    by_cases hc : acc.contains n = true
    · rw [if_pos hc]
      exact h
    · rw [if_neg hc]
      have hn : n ∉ acc := fun hmem => hc (List.elem_iff.mpr hmem)
      simp [List.nodup_append, h, hn]

theorem affectedFilesOf_mem (allCycles : List DependencyCycle) (x : String) :
    x ∈ affectedFilesOf allCycles ↔ ∃ c ∈ allCycles, x ∈ c.nodes := by
  unfold affectedFilesOf
  have main : ∀ (cycles : List DependencyCycle) (acc : List String),
      x ∈ cycles.foldl
          (fun acc c =>
            c.nodes.foldl (fun a n => if a.contains n then a else a ++ [n]) acc) acc ↔
        x ∈ acc ∨ ∃ c ∈ cycles, x ∈ c.nodes := by
    intro cycles
    induction cycles with
    | nil => intro acc; simp
    | cons c rest ih =>
      intro acc
      rw [List.foldl_cons, ih, foldl_insertUniq_mem]
      constructor
      · rintro ((h | h) | ⟨c', hc', h⟩)
        · exact Or.inl h
        · exact Or.inr ⟨c, List.mem_cons_self c rest, h⟩
        · exact Or.inr ⟨c', List.mem_cons_of_mem c hc', h⟩
      · rintro (h | ⟨c', hc', h⟩)
        · exact Or.inl (Or.inl h)
        · rcases List.mem_cons.mp hc' with rfl | h'
          · exact Or.inl (Or.inr h)
          · exact Or.inr ⟨c', h', h⟩
  rw [main allCycles []]
  simp

theorem affectedFilesOf_nodup (allCycles : List DependencyCycle) :
    (affectedFilesOf allCycles).Nodup := by
  unfold affectedFilesOf
  have main : ∀ (cycles : List DependencyCycle) (acc : List String), acc.Nodup →
      (cycles.foldl
        (fun acc c =>
          c.nodes.foldl (fun a n => if a.contains n then a else a ++ [n]) acc) acc).Nodup := by
    intro cycles
    induction cycles with
    | nil => intro acc h; exact h
    | cons c rest ih =>
      intro acc h
      rw [List.foldl_cons]
      exact ih _ (foldl_insertUniq_nodup c.nodes acc h)
  exact main allCycles [] (by simp)

/-- C10: in `detectCircularDependencies`, the reported `cycles` list is the
first `maxCycles` elements of the severity-sorted cycle list, while
`hasCycles`, `totalCycles` and the per-severity summary counts are computed
over *all* detected cycles, and `affectedFiles` is the duplicate-free union
of the nodes of every detected cycle — truncation never affects the
aggregate fields. -/
theorem claim_C10 (g : Graph) (maxCycles : Nat) :
    (detectCircularFromGraph g maxCycles).cycles = (findCycles g).take maxCycles ∧
    (detectCircularFromGraph g maxCycles).totalCycles = (findCycles g).length ∧
    ((detectCircularFromGraph g maxCycles).hasCycles = true ↔ findCycles g ≠ []) ∧
    (detectCircularFromGraph g maxCycles).summary.critical =
      ((findCycles g).filter (fun c => c.severity == Severity.critical)).length ∧
    (detectCircularFromGraph g maxCycles).summary.high =
      ((findCycles g).filter (fun c => c.severity == Severity.high)).length ∧
    (detectCircularFromGraph g maxCycles).summary.medium =
      ((findCycles g).filter (fun c => c.severity == Severity.medium)).length ∧
    (detectCircularFromGraph g maxCycles).summary.low =
      ((findCycles g).filter (fun c => c.severity == Severity.low)).length ∧
    (detectCircularFromGraph g maxCycles).affectedFiles.Nodup ∧
    (∀ x, x ∈ (detectCircularFromGraph g maxCycles).affectedFiles ↔
      ∃ c ∈ findCycles g, x ∈ c.nodes) := by
  refine ⟨rfl, rfl, ?_, rfl, rfl, rfl, rfl,
    affectedFilesOf_nodup (findCycles g),
    fun x => affectedFilesOf_mem (findCycles g) x⟩
  show (decide (0 < (findCycles g).length) = true) ↔ findCycles g ≠ []
  rw [decide_eq_true_iff]
  constructor
  · intro h hnil
    rw [hnil] at h
    simp at h
  · intro h
    exact List.length_pos.mpr h

/-! ## The Python relative-import classifier (claim C9) -/

theorem isRelativeImport_head {importPath : String}
    (h : isRelativeImport importPath = true) : ∃ rest, importPath.data = '.' :: rest := by
  unfold isRelativeImport at h
  split at h
  · rename_i rest heq
    exact ⟨rest, heq⟩
  · simp at h

theorem splitChar_dot_head (rest : List Char) :
    splitChar '.' ('.' :: rest) = [] :: splitChar '.' rest := by
  rw [splitChar]
  simp

/-- A syntactically relative import specifier never matches the builtin
list: its `split('.')[0]` is the empty string. -/
theorem isPythonBuiltin_relative {importPath : String}
    (h : isRelativeImport importPath = true) : isPythonBuiltin importPath = false := by
  rcases isRelativeImport_head h with ⟨rest, hdata⟩
  unfold isPythonBuiltin dotBaseName
  rw [hdata, splitChar_dot_head]
  show pythonBuiltins.contains (String.mk []) = false
  decide

/-- The resolved path of a relative Python import: the originating file's
directory, moved up one directory per leading dot after the first, extended
with the dot-separated module segments. -/
def pyRelativeResolved (importPath fromFile : String) : String :=
  pyResolvedPath (pyTargetDir fromFile (countLeadingDots importPath.data))
    (String.mk (importPath.data.drop (countLeadingDots importPath.data)))

/-- C9 (amended): a Python import specifier with leading dots is classified
`internal`; it resolves against the originating file's directory, walking up
one directory per leading dot *after the first* (a single dot stays in the
file's own directory); the classifier then probes, in order, the resolved
path with `.py` appended and the `__init__.py` file inside the resolved
directory; the first existing path wins, and if neither exists the
unresolved resolved path is kept as a best-effort internal target. -/
theorem claim_C9 (envExists : String → Bool) (importPath fromFile basePath : String)
    (hrel : isRelativeImport importPath = true) :
    (classifyPythonDependency envExists importPath fromFile basePath).dtype = "internal" ∧
    (envExists (pyRelativeResolved importPath fromFile ++ ".py") = true →
      (classifyPythonDependency envExists importPath fromFile basePath).toPath =
        pyRelativeResolved importPath fromFile ++ ".py") ∧
    (envExists (pyRelativeResolved importPath fromFile ++ ".py") = false →
      envExists (joinPath (pyRelativeResolved importPath fromFile) "__init__.py") = true →
      (classifyPythonDependency envExists importPath fromFile basePath).toPath =
        joinPath (pyRelativeResolved importPath fromFile) "__init__.py") ∧
    (envExists (pyRelativeResolved importPath fromFile ++ ".py") = false →
      envExists (joinPath (pyRelativeResolved importPath fromFile) "__init__.py") = false →
      (classifyPythonDependency envExists importPath fromFile basePath).toPath =
        pyRelativeResolved importPath fromFile) := by
  have hb := isPythonBuiltin_relative hrel
  have hred : classifyPythonDependency envExists importPath fromFile basePath =
      { fromFile := fromFile
        toPath := (([pyRelativeResolved importPath fromFile ++ ".py",
          joinPath (pyRelativeResolved importPath fromFile) "__init__.py"].find?
            envExists).getD (pyRelativeResolved importPath fromFile))
        dtype := "internal"
        importStatements := [importPath] } := by
    unfold classifyPythonDependency pyRelativeResolved
    rw [hb, hrel]
    rfl
  rw [hred]
  refine ⟨rfl, ?_, ?_, ?_⟩
  · intro h1
    simp [List.find?_cons, h1]
  · intro h1 h2
    simp [List.find?_cons, h1, h2]
  · intro h1 h2
    simp [List.find?_cons, h1, h2]

/-- The filesystem of the C9 instances: only `pkg/helper.py` exists. -/
def c9env : String → Bool := fun p => p == "pkg/helper.py"

/-- C9 counterexample: for the single-dot import `.helper` from
`pkg/mod.py` (with `pkg/helper.py` existing), the code resolves inside the
file's *own* directory `pkg` and finds `pkg/helper.py`, whereas walking up
one directory per leading dot — the claim's wording, one level up already
for a single dot — resolves to `./helper`; the classifiers disagree. -/
theorem claim_C9_counterexample :
    (classifyPythonDependency c9env ".helper" "pkg/mod.py" "base").toPath =
      "pkg/helper.py" ∧
    (claimClassifyPythonRelative c9env ".helper" "pkg/mod.py").toPath = "./helper" ∧
    ("pkg/helper.py" : String) ≠ "./helper" :=
  ⟨rfl, rfl, by decide⟩

/-- Witness for C9 at a concrete input: the import `.helper` from
`pkg/mod.py` under the filesystem `c9env`. -/
theorem claim_C9_witness :
    (classifyPythonDependency c9env ".helper" "pkg/mod.py" "base").dtype = "internal" ∧
    (c9env (pyRelativeResolved ".helper" "pkg/mod.py" ++ ".py") = true →
      (classifyPythonDependency c9env ".helper" "pkg/mod.py" "base").toPath =
        pyRelativeResolved ".helper" "pkg/mod.py" ++ ".py") ∧
    (c9env (pyRelativeResolved ".helper" "pkg/mod.py" ++ ".py") = false →
      c9env (joinPath (pyRelativeResolved ".helper" "pkg/mod.py") "__init__.py") = true →
      (classifyPythonDependency c9env ".helper" "pkg/mod.py" "base").toPath =
        joinPath (pyRelativeResolved ".helper" "pkg/mod.py") "__init__.py") ∧
    (c9env (pyRelativeResolved ".helper" "pkg/mod.py" ++ ".py") = false →
      c9env (joinPath (pyRelativeResolved ".helper" "pkg/mod.py") "__init__.py") = false →
      (classifyPythonDependency c9env ".helper" "pkg/mod.py" "base").toPath =
        pyRelativeResolved ".helper" "pkg/mod.py") :=
  claim_C9 c9env ".helper" "pkg/mod.py" "base" rfl

/-! ## The maintainability index (claim C7) -/

theorem clampScore_nonneg (x : ℝ) : 0 ≤ clampScore x :=
  le_max_left 0 _

theorem clampScore_le_100 (x : ℝ) : clampScore x ≤ 100 := by
  unfold clampScore
  apply max_le
  · norm_num
  · exact min_le_left _ _

theorem jsRound_clamp_nonneg (x : ℝ) : 0 ≤ jsRound (clampScore x) := by
  unfold jsRound
  rw [Int.le_floor]
  have := clampScore_nonneg x
  push_cast
  linarith

theorem jsRound_clamp_le_100 (x : ℝ) : jsRound (clampScore x) ≤ 100 := by
  unfold jsRound
  have hlt : ⌊clampScore x + 1 / 2⌋ < 101 := by
    rw [Int.floor_lt]
    have := clampScore_le_100 x
    push_cast
    linarith
  omega

theorem maintainabilityIndexOf_nonneg (t c l : Nat) :
    0 ≤ maintainabilityIndexOf t c l := by
  unfold maintainabilityIndexOf
  apply jsRound_clamp_nonneg

theorem maintainabilityIndexOf_le_100 (t c l : Nat) :
    maintainabilityIndexOf t c l ≤ 100 := by
  unfold maintainabilityIndexOf
  apply jsRound_clamp_le_100

theorem clampScore_eq_100 {x : ℝ} (h : 100 ≤ x) : clampScore x = 100 := by
  unfold clampScore
  rw [min_eq_left h, max_eq_right (by norm_num : (0 : ℝ) ≤ 100)]

theorem clampScore_of_bounds {x : ℝ} (h0 : 0 ≤ x) (h100 : x ≤ 100) :
    clampScore x = x := by
  unfold clampScore
  rw [min_eq_right h100, max_eq_right h0]

/-- `ln 70` lies between `4.2445` and `4.2527`: from `70 = 2⁶ · (35/32)`,
the 9-digit bounds on `ln 2`, and `1 - 1/x ≤ ln x ≤ x - 1`. -/
theorem log_seventy_bounds : 4.2445 < Real.log 70 ∧ Real.log 70 < 4.2527 := by
  have h64 : Real.log 70 = 6 * Real.log 2 + Real.log (35 / 32) := by
    have h70 : (70 : ℝ) = 2 ^ 6 * (35 / 32) := by norm_num
    rw [h70, Real.log_mul (by norm_num) (by norm_num), Real.log_pow]
    push_cast
    ring
  have hub : Real.log (35 / 32 : ℝ) ≤ 3 / 32 := by
    have h := Real.log_le_sub_one_of_pos (show (0 : ℝ) < 35 / 32 by norm_num)
    linarith
  have hlb : (3 : ℝ) / 35 ≤ Real.log (35 / 32) := by
    have h1 : Real.log ((35 / 32 : ℝ)⁻¹) ≤ (35 / 32 : ℝ)⁻¹ - 1 :=
      Real.log_le_sub_one_of_pos (by norm_num)
    rw [Real.log_inv] at h1
    have h2 : (35 / 32 : ℝ)⁻¹ = 32 / 35 := by norm_num
    rw [h2] at h1
    linarith
  have l2l := Real.log_two_gt_d9
  have l2u := Real.log_two_lt_d9
  constructor <;> [nlinarith; nlinarith]

/-- C7 counterexample: for a file with no functions and 69 counted lines of
code, the claim's formula (`avg = totalComplexity = 0`, no rounding) yields
exactly 100, while the code — which uses `avg = 1` when there are no
functions and rounds the clamped value — yields 98. -/
theorem claim_C7_counterexample :
    claimMaintainability 0 0 69 = 100 ∧
    maintainabilityIndexOf 0 0 69 = 98 ∧
    (tsFileComplexityCore [] 69).maintainabilityIndex = 98 ∧
    ((maintainabilityIndexOf 0 0 69 : ℝ) ≠ claimMaintainability 0 0 69) := by
  obtain ⟨hl, hu⟩ := log_seventy_bounds
  have l2l := Real.log_two_gt_d9
  have l2u := Real.log_two_lt_d9
  have key1 : maintainabilityRaw ((0 : ℕ) : ℝ) ((69 : ℕ) : ℝ) =
      171 - 16.2 * Real.log 70 := by
    unfold maintainabilityRaw
    norm_num [Real.log_one]
  have key2 : maintainabilityRaw 1 ((69 : ℕ) : ℝ) =
      171 - 5.2 * Real.log 2 - 0.23 - 16.2 * Real.log 70 := by
    unfold maintainabilityRaw
    norm_num
  have key2n : (0 : ℝ) ≤ maintainabilityRaw 1 ((69 : ℕ) : ℝ) := by
    rw [key2]
    nlinarith
  have key2u : maintainabilityRaw 1 ((69 : ℕ) : ℝ) ≤ 100 := by
    rw [key2]
    nlinarith
  have hcm : claimMaintainability 0 0 69 = 100 := by
    show clampScore (maintainabilityRaw
      (if 0 < (0 : ℕ) then ((0 : ℕ) : ℝ) / ((0 : ℕ) : ℝ) else ((0 : ℕ) : ℝ))
      ((69 : ℕ) : ℝ)) = 100
    rw [if_neg (lt_irrefl 0)]
    apply clampScore_eq_100
    rw [key1]
    nlinarith
  have hclamp2 : clampScore (maintainabilityRaw 1 ((69 : ℕ) : ℝ)) =
      maintainabilityRaw 1 ((69 : ℕ) : ℝ) :=
    clampScore_of_bounds key2n key2u
  have hmi : maintainabilityIndexOf 0 0 69 = 98 := by
    show jsRound (clampScore (maintainabilityRaw
      (if 0 < (0 : ℕ) then ((0 : ℕ) : ℝ) / ((0 : ℕ) : ℝ) else 1)
      ((69 : ℕ) : ℝ))) = 98
    rw [if_neg (lt_irrefl 0), hclamp2]
    unfold jsRound
    rw [Int.floor_eq_iff]
    constructor
    · rw [key2]
      push_cast
      nlinarith
    · rw [key2]
      push_cast
      nlinarith
  refine ⟨hcm, hmi, hmi, ?_⟩
  rw [hcm, hmi]
  norm_num

/-- C7 (amended): for every analyzed file, the maintainability index equals
`round(clamp(0, 100, 171 − 5.2·ln(avg+1) − 0.23·avg − 16.2·ln(loc+1)))`
where `avg` is totalComplexity/functionCount when the file has functions and
`1` (not totalComplexity) when it has none; and it always lies within
`[0, 100]` regardless of input magnitude, for both the TypeScript and the
Python analyzer paths. -/
theorem claim_C7 (functions : List FunctionComplexity) (linesOfCode : Nat) :
    ((tsFileComplexityCore functions linesOfCode).maintainabilityIndex =
      jsRound (clampScore (maintainabilityRaw
        (if 0 < functions.length then
          (((functions.map (·.complexity)).sum : ℕ) : ℝ) / (functions.length : ℝ)
         else 1)
        (linesOfCode : ℝ)))) ∧
    0 ≤ (tsFileComplexityCore functions linesOfCode).maintainabilityIndex ∧
    (tsFileComplexityCore functions linesOfCode).maintainabilityIndex ≤ 100 ∧
    (∀ complexity funcCount loc : ℕ,
      ((pyFileComplexityCore complexity funcCount loc).maintainabilityIndex =
        jsRound (clampScore (maintainabilityRaw
          (if 0 < funcCount then (complexity : ℝ) / (funcCount : ℝ) else 1)
          (loc : ℝ)))) ∧
      0 ≤ (pyFileComplexityCore complexity funcCount loc).maintainabilityIndex ∧
      (pyFileComplexityCore complexity funcCount loc).maintainabilityIndex ≤ 100) := by
  refine ⟨rfl, maintainabilityIndexOf_nonneg _ _ _, maintainabilityIndexOf_le_100 _ _ _,
    fun complexity funcCount loc =>
      ⟨rfl, maintainabilityIndexOf_nonneg _ _ _, maintainabilityIndexOf_le_100 _ _ _⟩⟩

end McpTools
